import Mathlib

/-!
Verification development for the notes application's storage, migration and
cross-tab reconciliation module (`store.ts`).

The module persists data in `localStorage`, a synchronous string-keyed
string-valued store with unique keys, index-based enumeration (`key(i)`)
and in-place updates.  We embed it as an association list `Store` whose
operations mirror the platform semantics: `getItem` finds the first entry
with the key, `setItem` replaces the value in place (preserving position)
or appends, `removeItem` deletes the entry with the key.

JavaScript objects (`Record<string, Doc>`, `Record<string, string>`) are
embedded as insertion-ordered association lists with unique keys; iteration
over `Object.keys` is embedded as structural recursion over the entry list.

`JSON.stringify` / `JSON.parse` are platform functions, not repository
code.  They are modelled by an injective encoding `encodeDocs` /
`encodeImages` with a partial inverse `parseDocs` / `parseImages`; the
storage logic never inspects the wire format, only round-tripping and
parse-fallibility matter.  The parser rejects duplicate keys, which a
`JSON.stringify` of an object can never produce.
-/

set_option maxRecDepth 40000

/-- Association-list lookup: the value of the first entry with the key.
Models `obj[key]` / `localStorage.getItem(key)` (unique keys in practice). -/
def assocGet (m : List (String × α)) (k : String) : Option α :=
  match m with
  | [] => none
  | (k', v) :: rest => if k' = k then some v else assocGet rest k

/-- Association-list update: replace the value of the first entry with the
key in place, else append.  Models `obj[key] = v` / `localStorage.setItem`
(both keep the position of an existing key). -/
def assocSet (m : List (String × α)) (k : String) (v : α) : List (String × α) :=
  match m with
  | [] => [(k, v)]
  | (k', v') :: rest => if k' = k then (k, v) :: rest else (k', v') :: assocSet rest k v

/-- Association-list removal by key.  Models `delete obj[key]` /
`localStorage.removeItem(key)`; with unique keys, removing every entry with
the key equals removing the one entry. -/
def assocDel (m : List (String × α)) (k : String) : List (String × α) :=
  m.filter (fun e => !(e.1 = k : Bool))

/-- Modelled from the spec: the `Doc` record of `types.ts` (not included in
the sources) — "id, title, content, lastSaved, font", with `lastSaved` a
millisecond timestamp and the rest strings. -/
structure Doc where
  id : String
  title : String
  content : String
  lastSaved : Nat
  font : String
deriving DecidableEq

/-- The shared string-keyed string store (`localStorage`), as an
insertion-ordered association list with unique keys. -/
abbrev Store := List (String × String)

abbrev DocsMap := List (String × Doc)

abbrev ImagesMap := List (String × String)

/-- Unary encoding of a natural number, used by the model of
`JSON.stringify` (the wire format is irrelevant to the storage logic). -/
def encNatU (n : Nat) : List Char :=
  List.replicate n '#' ++ [';']

def decNatU : List Char → Option (Nat × List Char)
  | '#' :: rest => (decNatU rest).map (fun p => (p.1 + 1, p.2))
  | ';' :: rest => some (0, rest)
  | _ => none

/-- Length-prefixed string encoding (model of a JSON string literal). -/
def encStrU (s : List Char) : List Char :=
  encNatU s.length ++ s

def decStrU (cs : List Char) : Option (List Char × List Char) :=
  match decNatU cs with
  | none => none
  | some (n, r) => if n ≤ r.length then some (r.take n, r.drop n) else none

def encDoc (d : Doc) : List Char :=
  encStrU d.id.data ++ encStrU d.title.data ++ encStrU d.content.data ++
    encNatU d.lastSaved ++ encStrU d.font.data

def decDoc (cs : List Char) : Option (Doc × List Char) :=
  match decStrU cs with
  | none => none
  | some (i, r1) =>
    match decStrU r1 with
    | none => none
    | some (t, r2) =>
      match decStrU r2 with
      | none => none
      | some (c, r3) =>
        match decNatU r3 with
        | none => none
        | some (ls, r4) =>
          match decStrU r4 with
          | none => none
          | some (f, r5) => some (⟨⟨i⟩, ⟨t⟩, ⟨c⟩, ls, ⟨f⟩⟩, r5)

def encDocEntries : DocsMap → List Char
  | [] => []
  | (k, d) :: rest => encStrU k.data ++ encDoc d ++ encDocEntries rest

def decDocEntries : Nat → List Char → Option (DocsMap × List Char)
  | 0, cs => some ([], cs)
  | n + 1, cs =>
    match decStrU cs with
    | none => none
    | some (k, r1) =>
      match decDoc r1 with
      | none => none
      | some (d, r2) =>
        match decDocEntries n r2 with
        | none => none
        | some (l, r3) => some ((⟨k⟩, d) :: l, r3)

/-- Model of `JSON.stringify` on the documents map. -/
def encodeDocs (l : DocsMap) : String :=
  ⟨encNatU l.length ++ encDocEntries l⟩

/-- Model of `JSON.parse` for the documents map: partial inverse of
`encodeDocs`; any other string is "invalid JSON" and fails. -/
def parseDocs (raw : String) : Option DocsMap :=
  match decNatU raw.data with
  | none => none
  | some (n, r) =>
    match decDocEntries n r with
    | none => none
    | some (l, r2) =>
      if r2 = [] then (if (l.map Prod.fst).Nodup then some l else none) else none

def encImgEntries : ImagesMap → List Char
  | [] => []
  | (k, v) :: rest => encStrU k.data ++ encStrU v.data ++ encImgEntries rest

def decImgEntries : Nat → List Char → Option (ImagesMap × List Char)
  | 0, cs => some ([], cs)
  | n + 1, cs =>
    match decStrU cs with
    | none => none
    | some (k, r1) =>
      match decStrU r1 with
      | none => none
      | some (v, r2) =>
        match decImgEntries n r2 with
        | none => none
        | some (l, r3) => some ((⟨k⟩, ⟨v⟩) :: l, r3)

/-- Model of `JSON.stringify` on the id→dataURL images map. -/
def encodeImages (l : ImagesMap) : String :=
  ⟨encNatU l.length ++ encImgEntries l⟩

/-- Model of `JSON.parse` for the images map. -/
def parseImages (raw : String) : Option ImagesMap :=
  match decNatU raw.data with
  | none => none
  | some (n, r) =>
    match decImgEntries n r with
    | none => none
    | some (l, r2) =>
      if r2 = [] then (if (l.map Prod.fst).Nodup then some l else none) else none

def DOCS_KEY : String := "notes:documents"

def IMAGES_KEY : String := "notes:images"

/-- Constant `IMAGE_KEY_PREFIX` of the source (renamed). -/
def IMAGE_KEY_PRE : String := "notes:image:"

/-- Constant `DOC_DATA_PREFIX` of the source (renamed). -/
def DOC_DATA_PRE : String := "notes:doc:"

def STORAGE_VERSION_KEY : String := "notes:storage:version"

def CURRENT_STORAGE_VERSION : Nat := 4

def getItem (s : Store) (k : String) : Option String :=
  assocGet s k

def setItem (s : Store) (k v : String) : Store :=
  assocSet s k v

def removeItem (s : Store) (k : String) : Store :=
  assocDel s k

/-- Model of `parseInt(v, 10)` on the canonical decimal strings the module
itself writes; any string not starting with a digit is `NaN`. -/
def parseIntModel (v : String) : Option Nat :=
  let ds := v.data.takeWhile Char.isDigit
  if ds.isEmpty then none
  else some (ds.foldl (fun a c => a * 10 + (c.toNat - 48)) 0)

/-- Function `getStorageVersion` (source lines 131–136): missing, empty or
unparsable stored version reads as `0`. -/
def getStorageVersion (s : Store) : Nat :=
  match getItem s STORAGE_VERSION_KEY with
  | none => 0
  | some v => if v = "" then 0 else (parseIntModel v).getD 0

/-- Function `setStorageVersion` (source line 137). -/
def setStorageVersion (n : Nat) (s : Store) : Store :=
  setItem s STORAGE_VERSION_KEY (toString n)

/-- The per-image-key collection pass of `loadImagesFromStorage`
(source lines 28–36): walk every store key, and for each key bearing the
per-image prefix whose value is non-empty (`if (val)`), record
`id ↦ value` in the result object. -/
def collectImagesGo (s : Store) : List (String × String) → ImagesMap → ImagesMap
  | [], out => out
  | (k, _) :: rest, out =>
    if IMAGE_KEY_PRE.data.isPrefixOf k.data then
      match getItem s k with
      | none => collectImagesGo s rest out
      | some val =>
        if val = "" then collectImagesGo s rest out
        else collectImagesGo s rest (assocSet out ⟨k.data.drop IMAGE_KEY_PRE.data.length⟩ val)
    else collectImagesGo s rest out

def collectImages (s : Store) : ImagesMap :=
  collectImagesGo s s []

/-- Function `loadImagesFromStorage` (source lines 23–53): per-image keys first;
only when that pass collected nothing, fall back to the legacy aggregate
`notes:images` JSON map; a malformed aggregate is ignored. -/
def loadImagesFromStorage (s : Store) : ImagesMap :=
  let out := collectImages s
  if out.isEmpty then
    match getItem s IMAGES_KEY with
    | none => out
    | some raw =>
      if raw = "" then out
      else
        match parseImages raw with
        | some parsed => parsed
        | none => out
  else out

/-- Function `saveImagesToStorage` (source lines 55–58): write the whole map under
the legacy aggregate key. -/
def saveImagesToStorage (images : ImagesMap) (s : Store) : Store :=
  setItem s IMAGES_KEY (encodeImages images)

/-- Function `saveImageToStorage` (source lines 60–62): one per-image key. -/
def saveImageToStorage (id dataUrl : String) (s : Store) : Store :=
  setItem s (IMAGE_KEY_PRE ++ id) dataUrl

/-- Function `saveDocContent` (source lines 75–77): per-document body slot. -/
def saveDocContent (id content : String) (s : Store) : Store :=
  setItem s (DOC_DATA_PRE ++ id) content

/-- Function `saveDocsToStorage` (source lines 123–125). -/
def saveDocsToStorage (docs : DocsMap) (s : Store) : Store :=
  setItem s DOCS_KEY (encodeDocs docs)

/-- Case-insensitive character comparison (the regex `i` flag). -/
def ciEq (a b : Char) : Bool :=
  a.toLower = b.toLower

/-- Case-insensitive literal prefix test: does the input start with the
pattern? -/
def ciPref : List Char → List Char → Bool
  | [], _ => true
  | _ :: _, [] => false
  | a :: as, b :: bs => ciEq a b && ciPref as bs

def isQuote (c : Char) : Bool :=
  c = '"' || c = Char.ofNat 39

/-- The continuation of the image regex after `src=`:
`(?:"|')(data:[^"']+)(?:"|')[^>]*>`.  Each piece is deterministic — the
greedy classes exclude exactly the character the next piece requires — so
no backtracking is possible inside it.  Returns the text matched by the
capture group (original case) and the input remaining after the `>`. -/
def afterSrc (cs : List Char) : Option (List Char × List Char) :=
  match cs with
  | [] => none
  | q :: cs1 =>
    if isQuote q then
      if ciPref "data:".data cs1 then
        let dataLit := cs1.take 5
        let body := cs1.drop 5
        let cap := body.takeWhile (fun c => !isQuote c)
        if cap.isEmpty then none
        else
          match body.drop cap.length with
          | [] => none
          | q2 :: cs2 =>
            if isQuote q2 then
              let run := cs2.takeWhile (fun c => !(c = '>' : Bool))
              match cs2.drop run.length with
              | [] => none
              | gt :: cs3 => if gt = '>' then some (dataLit ++ cap, cs3) else none
            else none
      else none
    else none

/-- Backtracking over the `[^>]+` before `src=`: try the latest admissible
position for `src=` first (greedy), retreating one character at a time, as
a backtracking regex engine does.  `n` is the candidate length of the
`[^>]+` run; every position `1 ≤ k ≤ maxRun` is admissible. -/
def trySrc (rest : List Char) : Nat → Option (List Char × List Char)
  | 0 => none
  | k + 1 =>
    if ciPref "src=".data (rest.drop (k + 1)) then
      match afterSrc (rest.drop (k + 1 + 4)) with
      | some r => some r
      | none => trySrc rest k
    else trySrc rest k

/-- Attempt to match `<img[^>]+src=(?:"|')(data:[^"']+)(?:"|')[^>]*>`
(flags `gi`) anchored at the start of the input; on success, return the
capture (the data URL) and the remaining input after the match. -/
def imgMatchHere (cs : List Char) : Option (List Char × List Char) :=
  if ciPref "<img".data cs then
    let rest := cs.drop 4
    trySrc rest ((rest.takeWhile (fun c => !(c = '>' : Bool))).length)
  else none

/-- The call `re.exec` driven over the whole input (the `while` loop of
`migrateDocsImages`): at each position try to match; on success record the
capture and resume after the match, otherwise advance one character.
`fuel` bounds the recursion; every step consumes at least one character,
so `fuel = cs.length` reproduces the unbounded scan. -/
def imgScan : Nat → List Char → List (List Char)
  | 0, _ => []
  | _, [] => []
  | fuel + 1, c :: rest =>
    match imgMatchHere (c :: rest) with
    | some (cap, after) => cap :: imgScan fuel after
    | none => imgScan fuel rest

/-- The expression `newContent.split(dataUrl).join(replacement)`: leftmost non-overlapping
textual replacement of every occurrence of `x` by `y`.  The callers only
pass non-empty `x` (a capture always starts with `data:`); for `x = []`
the input is returned unchanged. -/
def replaceAllGo (x y : List Char) : Nat → List Char → List Char
  | 0, s => s
  | _, [] => []
  | fuel + 1, c :: rest =>
    if x.isEmpty then c :: rest
    else if x.isPrefixOf (c :: rest) then y ++ replaceAllGo x y fuel (rest.drop (x.length - 1))
    else c :: replaceAllGo x y fuel rest

def replaceAll (x y s : List Char) : List Char :=
  replaceAllGo x y s.length s

/-- Character class `[A-Za-z0-9\-_]` of the placeholder regex. -/
def idChar (c : Char) : Bool :=
  c.isAlpha || c.isDigit || c = '-' || c = '_'

/-- Scan for `notes:image:([A-Za-z0-9\-_]+)` with the `g` flag
(`findReferencedImageIds`): at each position, a match needs the literal
prefix followed by at least one identifier character; the capture is the
maximal identifier run; no match advances one character. -/
def phScanGo : Nat → List Char → List String
  | 0, _ => []
  | _, [] => []
  | fuel + 1, c :: rest =>
    if "notes:image:".data.isPrefixOf (c :: rest) then
      let body := (c :: rest).drop "notes:image:".data.length
      let cap := body.takeWhile idChar
      if cap.isEmpty then phScanGo fuel rest
      else ⟨cap⟩ :: phScanGo fuel (body.drop cap.length)
    else phScanGo fuel rest

def phScan (cs : List Char) : List String :=
  phScanGo cs.length cs

/-- Method `Set.add`: insertion-ordered, duplicates ignored. -/
def setAdd (l : List String) (x : String) : List String :=
  if x ∈ l then l else l ++ [x]

def setAddAll (l : List String) (xs : List String) : List String :=
  xs.foldl setAdd l

/-- Model of JS `String.prototype.trim` on the character list. -/
def jsTrim (cs : List Char) : List Char :=
  ((cs.dropWhile Char.isWhitespace).reverse.dropWhile Char.isWhitespace).reverse

/-- The body of the `while ((m = re.exec(doc.content)) !== null)` loop of
`migrateDocsImages` (source lines 149–160), folded over the capture list
`re.exec` produces: look up an existing id holding exactly this data URL
(first key in insertion order), otherwise mint a fresh id — modelled by the
supply `g` applied to a running call counter, standing for
`'img-' + Date.now() + '-' + random` — and record it; then replace every
occurrence of the data URL in the working content by the placeholder. -/
def applyCaptures (g : Nat → String) :
    List (List Char) → ImagesMap → Nat → List Char → ImagesMap × Nat × List Char
  | [], im, n, nc => (im, n, nc)
  | cap :: caps, im, n, nc =>
    match im.find? (fun e => e.2 == (⟨cap⟩ : String)) with
    | some e => applyCaptures g caps im n (replaceAll cap ("notes:image:" ++ e.1).data nc)
    | none =>
      let eid := g n
      applyCaptures g caps (assocSet im eid ⟨cap⟩) (n + 1)
        (replaceAll cap ("notes:image:" ++ eid).data nc)

/-- The per-document loop of `migrateDocsImages` (source lines 143–165),
threading the images map, the fresh-id counter and the function-wide
`changed` flag through the documents in insertion order. -/
def mdiDocs (g : Nat → String) (t : Nat) :
    DocsMap → ImagesMap → Nat → Bool → DocsMap × ImagesMap × Nat × Bool
  | [], im, n, ch => ([], im, n, ch)
  | (k, d) :: rest, im, n, ch =>
    if d.content = "" then
      let r := mdiDocs g t rest im n ch
      ((k, d) :: r.1, r.2)
    else
      let caps := imgScan d.content.data.length d.content.data
      let a := applyCaptures g caps im n d.content.data
      let ch2 := ch || !caps.isEmpty
      let d' := if ch2 = true ∧ a.2.2 ≠ d.content.data then
          { d with content := ⟨a.2.2⟩, lastSaved := t } else d
      let r := mdiDocs g t rest a.1 a.2.1 ch2
      ((k, d') :: r.1, r.2)

/-- Function `migrateDocsImages` (source lines 140–168): load the images map, sweep
all documents, and — when anything matched — persist the accumulated map
under the legacy aggregate key.  Returns (docs, store, counter, changed). -/
def migrateDocsImages (g : Nat → String) (gn t : Nat) (s : Store) (docs : DocsMap) :
    DocsMap × Store × Nat × Bool :=
  let images := loadImagesFromStorage s
  let r := mdiDocs g t docs images gn false
  let s' := if r.2.2.2 then saveImagesToStorage r.2.1 s else s
  (r.1, s', r.2.2.1, r.2.2.2)

/-- The per-document loop of `migrateSplitDocs` (source lines 173–182):
a document whose content is truthy (`doc.content`) and non-blank
(`doc.content.trim()`) has its content written to its body slot, cleared
in the metadata and its `lastSaved` bumped. -/
def msdDocs (t : Nat) : DocsMap → Store → Bool → DocsMap × Store × Bool
  | [], s, ch => ([], s, ch)
  | (k, d) :: rest, s, ch =>
    if d.content ≠ "" ∧ jsTrim d.content.data ≠ [] then
      let s1 := saveDocContent k d.content s
      let r := msdDocs t rest s1 true
      ((k, { d with content := "", lastSaved := t }) :: r.1, r.2)
    else
      let r := msdDocs t rest s ch
      ((k, d) :: r.1, r.2)

/-- Function `migrateSplitDocs` (source lines 171–184). -/
def migrateSplitDocs (t : Nat) (s : Store) (docs : DocsMap) : DocsMap × Store × Bool :=
  msdDocs t docs s false

/-- The per-entry loop of `migrateImagesMapToPerKey` (source lines
193–201): skip falsy data; write the per-image key only when no truthy
per-key entry exists yet. -/
def explodeImages : ImagesMap → Store → Bool → Store × Bool
  | [], s, ch => (s, ch)
  | (id, imgData) :: rest, s, ch =>
    if imgData = "" then explodeImages rest s ch
    else
      match getItem s (IMAGE_KEY_PRE ++ id) with
      | none => explodeImages rest (setItem s (IMAGE_KEY_PRE ++ id) imgData) true
      | some v =>
        if v = "" then explodeImages rest (setItem s (IMAGE_KEY_PRE ++ id) imgData) true
        else explodeImages rest s ch

/-- Function `migrateImagesMapToPerKey` (source lines 187–209): explode the legacy
aggregate map into per-image keys, then delete the aggregate; a missing,
empty or malformed aggregate is a no-op. -/
def migrateImagesMapToPerKey (s : Store) : Store × Bool :=
  match getItem s IMAGES_KEY with
  | none => (s, false)
  | some raw =>
    if raw = "" then (s, false)
    else
      match parseImages raw with
      | none => (s, false)
      | some parsed =>
        let r := explodeImages parsed s false
        (removeItem r.1 IMAGES_KEY, r.2)

/-- Function `loadDocsFromStorage` (source lines 89–121): absent or malformed
stored documents read as the empty map; otherwise the migration chain
runs, gated per step by the stored schema version, and the version is
bumped to current in a final write. -/
def loadDocsFromStorage (g : Nat → String) (gn t : Nat) (s : Store) : DocsMap × Store :=
  match getItem s DOCS_KEY with
  | none => ([], s)
  | some raw =>
    if raw = "" then ([], s)
    else
      match parseDocs raw with
      | none => ([], s)
      | some parsed =>
        let ver := getStorageVersion s
        let r1 := if ver < 2 then
            let m := migrateDocsImages g gn t s parsed
            (m.1, if m.2.2.2 then saveDocsToStorage m.1 m.2.1 else m.2.1)
          else (parsed, s)
        let r2 := if ver < 3 then
            let m := migrateSplitDocs t r1.2 r1.1
            (m.1, if m.2.2 then saveDocsToStorage m.1 m.2.1 else m.2.1)
          else r1
        let s3 := if ver < 4 then (migrateImagesMapToPerKey r2.2).1 else r2.2
        let s4 := if ver < CURRENT_STORAGE_VERSION then
            setStorageVersion CURRENT_STORAGE_VERSION s3 else s3
        (r2.1, s4)

/-- The documents map the migration chain operates on: the parse step of
`loadDocsFromStorage`, with absent, empty or malformed stored documents
reading as the empty map. -/
def chainDocs (s : Store) : DocsMap :=
  match getItem s DOCS_KEY with
  | none => []
  | some raw => if raw = "" then [] else (parseDocs raw).getD []

/-- Step 1 of the chain: `migrateDocsImages` on the parsed documents. -/
def chainM1 (g : Nat → String) (t : Nat) (s : Store) : DocsMap × Store × Nat × Bool :=
  migrateDocsImages g 0 t s (chainDocs s)

/-- The store after step 1's conditional `saveDocsToStorage`. -/
def chainS1 (g : Nat → String) (t : Nat) (s : Store) : Store :=
  if (chainM1 g t s).2.2.2 then
    saveDocsToStorage (chainM1 g t s).1 (chainM1 g t s).2.1
  else (chainM1 g t s).2.1

/-- Step 2 of the chain: `migrateSplitDocs`. -/
def chainM2 (g : Nat → String) (t : Nat) (s : Store) : DocsMap × Store × Bool :=
  migrateSplitDocs t (chainS1 g t s) (chainM1 g t s).1

/-- The store after step 2's conditional `saveDocsToStorage`. -/
def chainS2 (g : Nat → String) (t : Nat) (s : Store) : Store :=
  if (chainM2 g t s).2.2 then
    saveDocsToStorage (chainM2 g t s).1 (chainM2 g t s).2.1
  else (chainM2 g t s).2.1

/-- The first two migration steps — `migrateDocsImages` then
`migrateSplitDocs`, each followed by its conditional `saveDocsToStorage`
as in `loadDocsFromStorage` — returning the migrated documents and the
store. -/
def chainStage12 (g : Nat → String) (t : Nat) (s : Store) : DocsMap × Store :=
  ((chainM2 g t s).1, chainS2 g t s)

/-- The full migration chain named by the spec — `migrateDocsImages`, then
`migrateSplitDocs`, then `migrateImagesMapToPerKey`, then the version
write, each with its conditional `saveDocsToStorage` as in
`loadDocsFromStorage` — run unconditionally (the situation of a stored
version of 0, or of a re-run after a version bump failed to persist). -/
def migrationChain (g : Nat → String) (t : Nat) (s : Store) : Store :=
  setStorageVersion CURRENT_STORAGE_VERSION
    (migrateImagesMapToPerKey (chainStage12 g t s).2).1

/-- The per-document loop of `findReferencedImageIds` over the metadata
map (source lines 215–222). -/
def findRefDocsGo : DocsMap → List String → List String
  | [], ids => ids
  | (_, d) :: rest, ids =>
    if d.content = "" then findRefDocsGo rest ids
    else findRefDocsGo rest (setAddAll ids (phScan d.content.data))

/-- The per-key scan of `findReferencedImageIds` over the body slots
(source lines 224–236). -/
def findRefStoreGo (s : Store) : List (String × String) → List String → List String
  | [], ids => ids
  | (k, _) :: rest, ids =>
    if DOC_DATA_PRE.data.isPrefixOf k.data then
      match getItem s k with
      | none => findRefStoreGo s rest ids
      | some val =>
        if val = "" then findRefStoreGo s rest ids
        else findRefStoreGo s rest (setAddAll ids (phScan val.data))
    else findRefStoreGo s rest ids

/-- Function `findReferencedImageIds` (source lines 212–238). -/
def findReferencedImageIds (docs : DocsMap) (s : Store) : List String :=
  findRefStoreGo s s (findRefDocsGo docs [])

/-- The `for (let i = 0; i < localStorage.length; i++)` sweep of
`removeUnreferencedImages` (source lines 245–254): index-based iteration
with in-loop removal — removing the entry at index `i` shifts every later
entry down while `i` still advances.  `fuel` bounds the recursion;
`length + 1` steps always reach `i ≥ length`. -/
def sweepLoop (referenced : List String) : Nat → Nat → Store → Bool → Store × Bool
  | 0, _, s, removed => (s, removed)
  | fuel + 1, i, s, removed =>
    if h : i < s.length then
      let e := s.get ⟨i, h⟩
      if IMAGE_KEY_PRE.data.isPrefixOf e.1.data ∧
          ¬ (⟨e.1.data.drop IMAGE_KEY_PRE.data.length⟩ : String) ∈ referenced then
        sweepLoop referenced fuel (i + 1) (removeItem s e.1) true
      else sweepLoop referenced fuel (i + 1) s removed
    else (s, removed)

/-- Function `removeUnreferencedImages` (source lines 241–259). -/
def removeUnreferencedImages (docs : DocsMap) (s : Store) : Store × Bool :=
  let referenced := findReferencedImageIds docs s
  sweepLoop referenced (s.length + 1) 0 s false

/-- The observable outcome of one `checkForExternalUpdates` call.
`onReplaceArg`/`onChangeFired` record whether (and with which document)
the callbacks were invoked; `hasReplace`/`hasChange` model whether the
caller supplied them. -/
structure CheckOut where
  docs : DocsMap
  store : Store
  changed : Bool
  newLastKnownSaveTime : Option Nat
  onReplaceArg : Option Doc
  onChangeFired : Bool
deriving DecidableEq

/-- First loop of `checkForExternalUpdates` (source lines 269–275): every
remote entry that is locally absent or whose `lastSaved` differs from the
local copy's overwrites the local entry. -/
def cfuLoop1 : DocsMap → DocsMap → Bool → DocsMap × Bool
  | [], docs, ch => (docs, ch)
  | (id, r) :: rest, docs, ch =>
    match assocGet docs id with
    | none => cfuLoop1 rest (assocSet docs id r) true
    | some l =>
      if l.lastSaved ≠ r.lastSaved then cfuLoop1 rest (assocSet docs id r) true
      else cfuLoop1 rest docs ch

/-- Second loop of `checkForExternalUpdates` (source lines 277–282): every
id present locally (keys snapshot after the first loop) but absent
remotely is deleted. -/
def cfuLoop2 (remote : DocsMap) : List String → DocsMap → Bool → DocsMap × Bool
  | [], docs, ch => (docs, ch)
  | id :: rest, docs, ch =>
    match assocGet remote id with
    | none => cfuLoop2 remote rest (assocDel docs id) true
    | some _ => cfuLoop2 remote rest docs ch

/-- The tail of `checkForExternalUpdates` (source lines 285–292): the four
returns differ only in the watermark and the `onReplace` invocation, so
those two fields are computed here.  `if (!currentId)` is falsy for both
`null` and the empty string. -/
def cfuTail (remote : DocsMap) (currentId : Option String) (lastKnownSaveTime : Nat)
    (hasReplace : Bool) : Option Nat × Option Doc :=
  match currentId with
  | none => (none, none)
  | some c =>
    if c = "" then (none, none)
    else
      match assocGet remote c with
      | none => (none, none)
      | some rd =>
        if rd.lastSaved > lastKnownSaveTime then
          (some rd.lastSaved, if hasReplace then some rd else none)
        else (none, none)

/-- Function `checkForExternalUpdates` (source lines 261–293). -/
def checkForExternalUpdates (g : Nat → String) (gn t : Nat) (s : Store) (docs : DocsMap)
    (currentId : Option String) (lastKnownSaveTime : Nat)
    (hasReplace hasChange : Bool) : CheckOut :=
  let lr := loadDocsFromStorage g gn t s
  let remote := lr.1
  let p1 := cfuLoop1 remote docs false
  let p2 := cfuLoop2 remote (p1.1.map Prod.fst) p1.1 p1.2
  let tail := cfuTail remote currentId lastKnownSaveTime hasReplace
  ⟨p2.1, lr.2, p2.2, tail.1, tail.2, p2.2 && hasChange⟩

/-- Executable substring test (used only to state properties). -/
def strContains (s sub : String) : Bool :=
  (List.range (s.data.length + 1)).any (fun i => sub.data.isPrefixOf (s.data.drop i))

/-- The truthy-and-non-blank test `doc.content && doc.content.trim()` of
`migrateSplitDocs`, as a Bool. -/
def docNonblank (d : Doc) : Bool :=
  !(d.content = "" : Bool) && !(jsTrim d.content.data).isEmpty

/-! ### Supporting lemmas and claim theorems -/

theorem assocGet_set_self (m : List (String × α)) (k : String) (v : α) :
    assocGet (assocSet m k v) k = some v := by
  induction m with
  | nil => simp [assocSet, assocGet]
  | cons e rest ih =>
    obtain ⟨k', v'⟩ := e
    by_cases h : k' = k <;> simp [assocSet, assocGet, h, ih]

theorem assocGet_set_ne (m : List (String × α)) (k k' : String) (v : α) (h : k ≠ k') :
    assocGet (assocSet m k v) k' = assocGet m k' := by
  induction m with
  | nil => simp [assocSet, assocGet, h]
  | cons e rest ih =>
    obtain ⟨k0, v0⟩ := e
    by_cases h0 : k0 = k
    · subst h0
      simp [assocSet, assocGet, h, ih]
    · simp only [assocSet, if_neg h0]
      by_cases h1 : k0 = k' <;> simp [assocGet, h1, ih]

theorem assocSet_self (m : List (String × α)) (k : String) (v : α)
    (h : assocGet m k = some v) : assocSet m k v = m := by
  induction m with
  | nil => simp [assocGet] at h
  | cons e rest ih =>
    obtain ⟨k0, v0⟩ := e
    by_cases h0 : k0 = k
    · subst h0
      simp [assocGet] at h
      simp [assocSet, h]
    · simp [assocGet, h0] at h
      simp [assocSet, h0, ih h]

theorem assocGet_del_self (m : List (String × α)) (k : String) :
    assocGet (assocDel m k) k = none := by
  induction m with
  | nil => simp [assocDel, assocGet]
  | cons e rest ih =>
    obtain ⟨k0, v0⟩ := e
    by_cases h0 : k0 = k
    · simpa [assocDel, h0] using ih
    · simpa [assocDel, assocGet, h0] using ih

theorem assocGet_del_ne (m : List (String × α)) (k k' : String) (h : k ≠ k') :
    assocGet (assocDel m k) k' = assocGet m k' := by
  induction m with
  | nil => simp [assocDel, assocGet]
  | cons e rest ih =>
    obtain ⟨k0, v0⟩ := e
    by_cases h0 : k0 = k
    · rw [show assocDel ((k0, v0) :: rest) k = assocDel rest k by simp [assocDel, h0]]
      rw [ih, assocGet, if_neg (h0 ▸ h : k0 ≠ k')]
    · rw [show assocDel ((k0, v0) :: rest) k = (k0, v0) :: assocDel rest k by simp [assocDel, h0]]
      by_cases h1 : k0 = k' <;> simp [assocGet, h1, ih]

theorem assocGet_eq_none_of_not_mem (m : List (String × α)) (k : String)
    (h : k ∉ m.map Prod.fst) : assocGet m k = none := by
  induction m with
  | nil => simp [assocGet]
  | cons e rest ih =>
    simp only [List.map_cons, List.mem_cons] at h
    push_neg at h
    simp [assocGet, Ne.symm h.1, ih h.2]

theorem assocGet_isSome_of_mem (m : List (String × α)) (k : String)
    (h : k ∈ m.map Prod.fst) : (assocGet m k).isSome := by
  induction m with
  | nil => simp at h
  | cons e rest ih =>
    by_cases h0 : e.1 = k
    · simp [assocGet, h0]
    · simp only [List.map_cons, List.mem_cons] at h
      rcases h with h | h
      · exact absurd h.symm h0
      · simpa [assocGet, h0] using ih h

theorem map_fst_assocSet (m : List (String × α)) (k : String) (v : α)
    (h : k ∈ m.map Prod.fst) : (assocSet m k v).map Prod.fst = m.map Prod.fst := by
  induction m with
  | nil => simp at h
  | cons e rest ih =>
    obtain ⟨k0, v0⟩ := e
    by_cases h0 : k0 = k
    · simp [assocSet, h0]
    · simp only [List.map_cons, List.mem_cons] at h
      rcases h with h | h
      · exact absurd h.symm h0
      · simp [assocSet, h0, ih h]

theorem mem_map_fst_assocSet (m : List (String × α)) (k x : String) (v : α) :
    x ∈ (assocSet m k v).map Prod.fst ↔ x = k ∨ x ∈ m.map Prod.fst := by
  induction m with
  | nil => simp [assocSet]
  | cons e rest ih =>
    obtain ⟨k0, v0⟩ := e
    by_cases h0 : k0 = k
    · subst h0
      simp [assocSet]
    · simp only [assocSet, if_neg h0, List.map_cons, List.mem_cons, ih]
      tauto

theorem nodup_keys_assocSet (m : List (String × α)) (k : String) (v : α)
    (h : (m.map Prod.fst).Nodup) : ((assocSet m k v).map Prod.fst).Nodup := by
  induction m with
  | nil => simp [assocSet]
  | cons e rest ih =>
    obtain ⟨k0, v0⟩ := e
    simp only [List.map_cons, List.nodup_cons] at h
    by_cases h0 : k0 = k
    · subst h0
      simpa [assocSet] using h
    · simp only [assocSet, if_neg h0, List.map_cons, List.nodup_cons]
      refine ⟨?_, ih h.2⟩
      rw [mem_map_fst_assocSet]
      push_neg
      exact ⟨h0, h.1⟩

theorem decNatU_enc (n : Nat) (r : List Char) :
    decNatU (encNatU n ++ r) = some (n, r) := by
  induction n with
  | zero => simp [encNatU, decNatU]
  | succ n ih => simpa [encNatU, decNatU, List.replicate_succ] using ih

theorem decStrU_enc (s : List Char) (r : List Char) :
    decStrU (encStrU s ++ r) = some (s, r) := by
  simp [encStrU, decStrU, decNatU_enc, List.take_append, List.drop_append]

theorem decDoc_enc (d : Doc) (r : List Char) :
    decDoc (encDoc d ++ r) = some (d, r) := by
  simp [encDoc, decDoc, decStrU_enc, decNatU_enc]

theorem decDocEntries_enc (l : DocsMap) (r : List Char) :
    decDocEntries l.length (encDocEntries l ++ r) = some (l, r) := by
  induction l with
  | nil => simp [encDocEntries, decDocEntries]
  | cons e rest ih =>
    obtain ⟨k, d⟩ := e
    simp [encDocEntries, decDocEntries, decStrU_enc, decDoc_enc, ih]

theorem parseDocs_encodeDocs (l : DocsMap) (h : (l.map Prod.fst).Nodup) :
    parseDocs (encodeDocs l) = some l := by
  have h1 : (encodeDocs l).data = encNatU l.length ++ (encDocEntries l ++ []) := by
    simp [encodeDocs]
  have h2 := decDocEntries_enc l []
  simp only [List.append_nil] at h2
  simp [parseDocs, h1, decNatU_enc, h2, h]

theorem decImgEntries_enc (l : ImagesMap) (r : List Char) :
    decImgEntries l.length (encImgEntries l ++ r) = some (l, r) := by
  induction l with
  | nil => simp [encImgEntries, decImgEntries]
  | cons e rest ih =>
    obtain ⟨k, v⟩ := e
    simp [encImgEntries, decImgEntries, decStrU_enc, ih]

theorem parseImages_encodeImages (l : ImagesMap) (h : (l.map Prod.fst).Nodup) :
    parseImages (encodeImages l) = some l := by
  have h1 : (encodeImages l).data = encNatU l.length ++ (encImgEntries l ++ []) := by
    simp [encodeImages]
  have h2 := decImgEntries_enc l []
  simp only [List.append_nil] at h2
  simp [parseImages, h1, decNatU_enc, h2, h]

theorem isPrefixOf_append_self (p x : List Char) : p.isPrefixOf (p ++ x) = true := by
  induction p with
  | nil => simp [List.isPrefixOf]
  | cons c rest ih => simp [List.isPrefixOf, ih]

/-- A string key `p ++ x` built from prefix `p` can never equal a fixed key
`t` that does not start with `p`. -/
theorem key_ne_of_pre (p t : String) (h : p.data.isPrefixOf t.data = false) (x : String) :
    p ++ x ≠ t := by
  intro hx
  subst hx
  rw [String.data_append, isPrefixOf_append_self] at h
  simp at h

theorem str_app_left_cancel (p a b : String) (h : p ++ a = p ++ b) : a = b := by
  have hd : p.data ++ a.data = p.data ++ b.data := by
    have := congrArg String.data h
    simpa [String.data_append] using this
  have h2 : a.data = b.data := List.append_cancel_left hd
  cases a
  cases b
  exact congrArg String.mk h2

/-- C8: `saveImageToStorage(id, dataUrl)` writes exactly the store key
`notes:image:<id>` to `dataUrl`; every other store key — in particular
every other image entry — retains exactly its previous value. -/
theorem c8_save_image_isolation (s : Store) (id dataUrl k : String)
    (hk : k ≠ IMAGE_KEY_PRE ++ id) :
    getItem (saveImageToStorage id dataUrl s) (IMAGE_KEY_PRE ++ id) = some dataUrl ∧
    getItem (saveImageToStorage id dataUrl s) k = getItem s k := by
  constructor
  · exact assocGet_set_self s (IMAGE_KEY_PRE ++ id) dataUrl
  · exact assocGet_set_ne s (IMAGE_KEY_PRE ++ id) k dataUrl (Ne.symm hk)

/-- Witness for C8 at a concrete store: saving `img-9` leaves the existing
`notes:image:a` entry untouched. -/
theorem c8_save_image_isolation_witness :
    getItem (saveImageToStorage "img-9" "u" [("notes:image:a", "x")])
        (IMAGE_KEY_PRE ++ "img-9") = some "u" ∧
    getItem (saveImageToStorage "img-9" "u" [("notes:image:a", "x")]) "notes:image:a" =
      getItem [("notes:image:a", "x")] "notes:image:a" :=
  c8_save_image_isolation [("notes:image:a", "x")] "img-9" "u" "notes:image:a" (by decide)

/-- C9: a present but malformed stored documents value makes
`loadDocsFromStorage` return the empty map, and a malformed aggregate
image map (with no per-image keys collected) makes
`loadImagesFromStorage`'s legacy fallback yield the empty mapping. -/
theorem c9_malformed_json_resets (g : Nat → String) (gn t : Nat) (s s2 : Store)
    (raw raw2 : String)
    (h1 : getItem s DOCS_KEY = some raw) (h2 : parseDocs raw = none)
    (h3 : collectImages s2 = []) (h4 : getItem s2 IMAGES_KEY = some raw2)
    (h5 : parseImages raw2 = none) :
    (loadDocsFromStorage g gn t s).1 = [] ∧ loadImagesFromStorage s2 = [] := by
  constructor
  · unfold loadDocsFromStorage
    rw [h1]
    by_cases hr : raw = ""
    · simp [hr]
    · simp [hr, h2]
  · unfold loadImagesFromStorage
    rw [h3, h4]
    by_cases hr : raw2 = ""
    · simp [hr]
    · simp [hr, h5]

/-- Witness for C9: the stored strings "x" and "y" are not valid encoded
maps; both loads yield the empty collection. -/
theorem c9_malformed_json_resets_witness :
    (loadDocsFromStorage (fun _ => "") 0 0 [(DOCS_KEY, "x")]).1 = [] ∧
    loadImagesFromStorage [(IMAGES_KEY, "y")] = [] :=
  c9_malformed_json_resets (fun _ => "") 0 0 [(DOCS_KEY, "x")] [(IMAGES_KEY, "y")]
    "x" "y" (by decide) (by decide) (by decide) (by decide) (by decide)

theorem collectImagesGo_lookup_set (s : Store) (K raw : String)
    (hK : IMAGE_KEY_PRE.data.isPrefixOf K.data = false) (l : List (String × String))
    (out : ImagesMap) :
    collectImagesGo (assocSet s K raw) l out = collectImagesGo s l out := by
  induction l generalizing out with
  | nil => rfl
  | cons e rest ih =>
    obtain ⟨k, v⟩ := e
    by_cases hp : IMAGE_KEY_PRE.data.isPrefixOf k.data
    · have hne : K ≠ k := by
        intro hx
        rw [hx, hp] at hK
        exact Bool.noConfusion hK
      have hg : getItem (assocSet s K raw) k = getItem s k :=
        assocGet_set_ne s K k raw hne
      simp only [collectImagesGo, hp, if_pos, hg]
      cases getItem s k with
      | none => exact ih out
      | some val =>
        by_cases hv : val = "" <;> simp [hv, ih]
    · simp only [collectImagesGo, hp]
      simp only [Bool.false_eq_true, if_neg (by exact fun hx => hp hx)]
      exact ih out

theorem collectImagesGo_iter_set (s : Store) (K raw : String)
    (hK : IMAGE_KEY_PRE.data.isPrefixOf K.data = false) (l : List (String × String))
    (out : ImagesMap) :
    collectImagesGo s (assocSet l K raw) out = collectImagesGo s l out := by
  induction l generalizing out with
  | nil => simp [assocSet, collectImagesGo, hK]
  | cons e rest ih =>
    obtain ⟨k0, v0⟩ := e
    by_cases h0 : k0 = K
    · subst h0
      rw [show assocSet ((k0, v0) :: rest) k0 raw = (k0, raw) :: rest by simp [assocSet]]
      simp [collectImagesGo, hK]
    · rw [show assocSet ((k0, v0) :: rest) K raw = (k0, v0) :: assocSet rest K raw by
        simp [assocSet, h0]]
      by_cases hp : IMAGE_KEY_PRE.data.isPrefixOf k0.data
      · simp only [collectImagesGo, hp, if_pos]
        cases getItem s k0 with
        | none => exact ih out
        | some val => by_cases hv : val = "" <;> simp [hv, ih]
      · simp only [collectImagesGo]
        simp only [Bool.false_eq_true, if_neg (by exact fun hx => hp hx)]
        exact ih out

theorem collectImages_set_aggregate (s : Store) (raw : String) :
    collectImages (setItem s IMAGES_KEY raw) = collectImages s := by
  have hK : IMAGE_KEY_PRE.data.isPrefixOf IMAGES_KEY.data = false := by decide
  unfold collectImages
  rw [show setItem s IMAGES_KEY raw = assocSet s IMAGES_KEY raw from rfl]
  rw [collectImagesGo_lookup_set s IMAGES_KEY raw hK]
  rw [collectImagesGo_iter_set s IMAGES_KEY raw hK]

/-- C6 counterexample: the store holds a key bearing the per-image prefix
(`notes:image:a`, with empty value) and a stale aggregate; the claim says
the aggregate is then ignored, but the code returns the aggregate's
entries. -/
theorem c6_counterexample :
    IMAGE_KEY_PRE.data.isPrefixOf "notes:image:a".data = true ∧
    loadImagesFromStorage [("notes:image:a", ""), ("notes:images", encodeImages [("b", "u")])] =
      [("b", "u")] := by
  constructor
  · decide
  · decide

/-- C6 (amended): `loadImagesFromStorage` returns the mapping assembled
from the per-image-prefixed keys with non-empty values; only when that
collection is empty does it fall back to the legacy aggregate; when the
collection is non-empty the result is unaffected by any value stored under
the aggregate key (per-key entries shadow the aggregate). -/
theorem c6_amended (s : Store) :
    (collectImages s ≠ [] →
      loadImagesFromStorage s = collectImages s ∧
      ∀ raw, loadImagesFromStorage (setItem s IMAGES_KEY raw) = collectImages s) ∧
    (collectImages s = [] → ∀ raw m, getItem s IMAGES_KEY = some raw →
      parseImages raw = some m → loadImagesFromStorage s = m) := by
  constructor
  · intro hne
    have hemp : (collectImages s).isEmpty = false := by
      cases hcs : collectImages s with
      | nil => exact absurd hcs hne
      | cons a l => simp
    constructor
    · unfold loadImagesFromStorage
      simp [hemp]
    · intro raw
      unfold loadImagesFromStorage
      rw [collectImages_set_aggregate s raw]
      simp [hemp]
  · intro heq raw m hraw hp
    have hemp : (collectImages s).isEmpty = true := by simp [heq]
    by_cases hr : raw = ""
    · subst hr
      have : parseImages "" = none := by decide
      rw [this] at hp
      exact Option.noConfusion hp
    · unfold loadImagesFromStorage
      simp [hemp, heq, hraw, hr, hp]

/-- Witness for C6 (amended), both branches at concrete stores: per-key
entries shadow a freshly written aggregate; with no collected per-key
entries the valid aggregate is returned. -/
theorem c6_amended_witness :
    loadImagesFromStorage (setItem [("notes:image:a", "u")] IMAGES_KEY (encodeImages [("b", "w")]))
      = collectImages [("notes:image:a", "u")] ∧
    loadImagesFromStorage [(IMAGES_KEY, encodeImages [("b", "w")])] = [("b", "w")] :=
  ⟨((c6_amended [("notes:image:a", "u")]).1 (by decide)).2 (encodeImages [("b", "w")]),
   (c6_amended [(IMAGES_KEY, encodeImages [("b", "w")])]).2 (by decide)
     (encodeImages [("b", "w")]) [("b", "w")] (by decide) (by decide)⟩

theorem docNonblank_iff (d : Doc) :
    docNonblank d = true ↔ (d.content ≠ "" ∧ jsTrim d.content.data ≠ []) := by
  simp [docNonblank, List.isEmpty_iff]

theorem docNonblank_false_iff (d : Doc) :
    docNonblank d = false ↔ ¬ (d.content ≠ "" ∧ jsTrim d.content.data ≠ []) := by
  rw [← docNonblank_iff]
  simp

theorem msdDocs_changed (t : Nat) (docs : DocsMap) (s : Store) (ch : Bool) :
    (msdDocs t docs s ch).2.2 = (ch || docs.any (fun e => docNonblank e.2)) := by
  induction docs generalizing s ch with
  | nil => simp [msdDocs]
  | cons e rest ih =>
    obtain ⟨k, d⟩ := e
    by_cases hb : d.content ≠ "" ∧ jsTrim d.content.data ≠ []
    · have hb' : docNonblank d = true := (docNonblank_iff d).2 hb
      simp [msdDocs, hb, hb', ih]
    · have hb' : docNonblank d = false := (docNonblank_false_iff d).2 hb
      simp [msdDocs, hb, hb', ih]

theorem msdDocs_store_frame (t : Nat) (docs : DocsMap) (s : Store) (ch : Bool) (K : String)
    (h : ∀ k ∈ docs.map Prod.fst, DOC_DATA_PRE ++ k ≠ K) :
    getItem (msdDocs t docs s ch).2.1 K = getItem s K := by
  induction docs generalizing s ch with
  | nil => simp [msdDocs]
  | cons e rest ih =>
    obtain ⟨k, d⟩ := e
    have hk : DOC_DATA_PRE ++ k ≠ K := h k (by simp)
    have hrest : ∀ k' ∈ rest.map Prod.fst, DOC_DATA_PRE ++ k' ≠ K := by
      intro k' hk'
      exact h k' (by simp [hk'])
    by_cases hb : d.content ≠ "" ∧ jsTrim d.content.data ≠ []
    · simp only [msdDocs, if_pos hb]
      rw [ih (saveDocContent k d.content s) true hrest]
      exact assocGet_set_ne s (DOC_DATA_PRE ++ k) K d.content hk
    · simp only [msdDocs, if_neg hb]
      exact ih s ch hrest

theorem msdDocs_get (t : Nat) (docs : DocsMap) (s : Store) (ch : Bool) (k : String) (d : Doc)
    (hnd : (docs.map Prod.fst).Nodup) (hget : assocGet docs k = some d) :
    assocGet (msdDocs t docs s ch).1 k =
      (if docNonblank d then some { d with content := "", lastSaved := t } else some d) := by
  induction docs generalizing s ch with
  | nil => simp [assocGet] at hget
  | cons e rest ih =>
    obtain ⟨k0, d0⟩ := e
    simp only [List.map_cons, List.nodup_cons] at hnd
    by_cases h0 : k0 = k
    · subst h0
      have hd : d0 = d := by simpa [assocGet] using hget
      subst hd
      by_cases hb : d0.content ≠ "" ∧ jsTrim d0.content.data ≠ []
      · have hb' : docNonblank d0 = true := (docNonblank_iff d0).2 hb
        simp [msdDocs, hb, hb', assocGet]
      · have hb' : docNonblank d0 = false := (docNonblank_false_iff d0).2 hb
        simp [msdDocs, hb, hb', assocGet]
    · have hget' : assocGet rest k = some d := by
        rw [show assocGet ((k0, d0) :: rest) k = assocGet rest k by simp [assocGet, h0]] at hget
        exact hget
      by_cases hb : d0.content ≠ "" ∧ jsTrim d0.content.data ≠ []
      · simp only [msdDocs, if_pos hb]
        rw [show assocGet ((k0, { d0 with content := "", lastSaved := t }) ::
          (msdDocs t rest (saveDocContent k0 d0.content s) true).1) k =
          assocGet (msdDocs t rest (saveDocContent k0 d0.content s) true).1 k by
            simp [assocGet, h0]]
        exact ih (saveDocContent k0 d0.content s) true hnd.2 hget'
      · simp only [msdDocs, if_neg hb]
        rw [show assocGet ((k0, d0) :: (msdDocs t rest s ch).1) k =
          assocGet (msdDocs t rest s ch).1 k by simp [assocGet, h0]]
        exact ih s ch hnd.2 hget'

theorem msdDocs_body (t : Nat) (docs : DocsMap) (s : Store) (ch : Bool) (k : String) (d : Doc)
    (hnd : (docs.map Prod.fst).Nodup) (hget : assocGet docs k = some d) :
    getItem (msdDocs t docs s ch).2.1 (DOC_DATA_PRE ++ k) =
      (if docNonblank d then some d.content else getItem s (DOC_DATA_PRE ++ k)) := by
  induction docs generalizing s ch with
  | nil => simp [assocGet] at hget
  | cons e rest ih =>
    obtain ⟨k0, d0⟩ := e
    simp only [List.map_cons, List.nodup_cons] at hnd
    by_cases h0 : k0 = k
    · subst h0
      have hd : d0 = d := by simpa [assocGet] using hget
      subst hd
      have hrest : ∀ k' ∈ rest.map Prod.fst, DOC_DATA_PRE ++ k' ≠ DOC_DATA_PRE ++ k0 := by
        intro k' hk' hx
        have : k' = k0 := str_app_left_cancel DOC_DATA_PRE k' k0 hx
        rw [this] at hk'
        exact hnd.1 hk'
      by_cases hb : d0.content ≠ "" ∧ jsTrim d0.content.data ≠ []
      · have hb' : docNonblank d0 = true := (docNonblank_iff d0).2 hb
        simp only [msdDocs, if_pos hb, hb', if_pos]
        rw [msdDocs_store_frame t rest (saveDocContent k0 d0.content s) true
          (DOC_DATA_PRE ++ k0) hrest]
        exact assocGet_set_self s (DOC_DATA_PRE ++ k0) d0.content
      · have hb' : docNonblank d0 = false := (docNonblank_false_iff d0).2 hb
        simp only [msdDocs, if_neg hb, hb', Bool.false_eq_true, if_false]
        exact msdDocs_store_frame t rest s ch (DOC_DATA_PRE ++ k0) hrest
    · have hget' : assocGet rest k = some d := by
        rw [show assocGet ((k0, d0) :: rest) k = assocGet rest k by simp [assocGet, h0]] at hget
        exact hget
      have hne : DOC_DATA_PRE ++ k0 ≠ DOC_DATA_PRE ++ k := by
        intro hx
        exact h0 (str_app_left_cancel DOC_DATA_PRE k0 k hx)
      by_cases hb : d0.content ≠ "" ∧ jsTrim d0.content.data ≠ []
      · simp only [msdDocs, if_pos hb]
        rw [ih (saveDocContent k0 d0.content s) true hnd.2 hget']
        by_cases hbd : docNonblank d = true
        · simp [hbd]
        · simp only [show docNonblank d = false by simpa using hbd, Bool.false_eq_true, if_false]
          exact assocGet_set_ne s (DOC_DATA_PRE ++ k0) (DOC_DATA_PRE ++ k) d0.content hne
      · simp only [msdDocs, if_neg hb]
        exact ih s ch hnd.2 hget'

/-- C4 counterexample: a document whose content is the non-empty string
`" "` is left untouched by `migrateSplitDocs` — no body slot is written,
the metadata keeps `" "`, `lastSaved` is not bumped and `changed` is
`false` — although the claim requires every document with non-empty
content to be migrated. -/
theorem c4_counterexample :
    migrateSplitDocs 9 [] [("a", ⟨"a", "", " ", 3, ""⟩)] =
      ([("a", ⟨"a", "", " ", 3, ""⟩)], [], false) ∧ (" " : String) ≠ "" := by
  constructor
  · decide
  · decide

/-- C4 (amended): `migrateSplitDocs` moves the content of every document
whose metadata carries non-blank inline content (non-empty and not
whitespace-only, per `doc.content && doc.content.trim()`) into that
document's body slot `notes:doc:<id>`, clears the metadata content and
bumps `lastSaved`; documents whose content is empty or whitespace-only are
left untouched, and `changed` reports whether any document was migrated. -/
theorem c4_amended (t : Nat) (s : Store) (docs : DocsMap) (k : String) (d : Doc)
    (hnd : (docs.map Prod.fst).Nodup) (hget : assocGet docs k = some d) :
    (migrateSplitDocs t s docs).2.2 = docs.any (fun e => docNonblank e.2) ∧
    (docNonblank d = true →
      assocGet (migrateSplitDocs t s docs).1 k = some { d with content := "", lastSaved := t } ∧
      getItem (migrateSplitDocs t s docs).2.1 (DOC_DATA_PRE ++ k) = some d.content) ∧
    (docNonblank d = false →
      assocGet (migrateSplitDocs t s docs).1 k = some d ∧
      getItem (migrateSplitDocs t s docs).2.1 (DOC_DATA_PRE ++ k) =
        getItem s (DOC_DATA_PRE ++ k)) := by
  refine ⟨by simpa using msdDocs_changed t docs s false, ?_, ?_⟩
  · intro hb
    constructor
    · rw [show (migrateSplitDocs t s docs).1 = (msdDocs t docs s false).1 from rfl]
      rw [msdDocs_get t docs s false k d hnd hget, hb]
      simp
    · rw [show (migrateSplitDocs t s docs).2.1 = (msdDocs t docs s false).2.1 from rfl]
      rw [msdDocs_body t docs s false k d hnd hget, hb]
      simp
  · intro hb
    constructor
    · rw [show (migrateSplitDocs t s docs).1 = (msdDocs t docs s false).1 from rfl]
      rw [msdDocs_get t docs s false k d hnd hget, hb]
      simp
    · rw [show (migrateSplitDocs t s docs).2.1 = (msdDocs t docs s false).2.1 from rfl]
      rw [msdDocs_body t docs s false k d hnd hget, hb]
      simp

/-- Witness for C4 (amended) at a concrete map: the non-blank document is
split into its body slot, and `changed` is reported. -/
theorem c4_amended_witness :
    (migrateSplitDocs 9 [] [("a", ⟨"a", "", "hi", 3, ""⟩)]).2.2 =
      [("a", (⟨"a", "", "hi", 3, ""⟩ : Doc))].any (fun e => docNonblank e.2) ∧
    (docNonblank ⟨"a", "", "hi", 3, ""⟩ = true →
      assocGet (migrateSplitDocs 9 [] [("a", ⟨"a", "", "hi", 3, ""⟩)]).1 "a" =
        some { (⟨"a", "", "hi", 3, ""⟩ : Doc) with content := "", lastSaved := 9 } ∧
      getItem (migrateSplitDocs 9 [] [("a", ⟨"a", "", "hi", 3, ""⟩)]).2.1
        (DOC_DATA_PRE ++ "a") = some (⟨"a", "", "hi", 3, ""⟩ : Doc).content) ∧
    (docNonblank ⟨"a", "", "hi", 3, ""⟩ = false →
      assocGet (migrateSplitDocs 9 [] [("a", ⟨"a", "", "hi", 3, ""⟩)]).1 "a" =
        some ⟨"a", "", "hi", 3, ""⟩ ∧
      getItem (migrateSplitDocs 9 [] [("a", ⟨"a", "", "hi", 3, ""⟩)]).2.1
        (DOC_DATA_PRE ++ "a") = getItem [] (DOC_DATA_PRE ++ "a")) :=
  c4_amended 9 [] [("a", ⟨"a", "", "hi", 3, ""⟩)] "a" ⟨"a", "", "hi", 3, ""⟩
    (by decide) (by decide)

theorem parseDocs_nodup (raw : String) (l : DocsMap) (h : parseDocs raw = some l) :
    (l.map Prod.fst).Nodup := by
  unfold parseDocs at h
  cases hd : decNatU raw.data with
  | none => rw [hd] at h; exact Option.noConfusion h
  | some p =>
    obtain ⟨n, r⟩ := p
    simp only [hd] at h
    cases he : decDocEntries n r with
    | none =>
      simp only [he] at h
      exact Option.noConfusion h
    | some q =>
      obtain ⟨l2, r2⟩ := q
      simp only [he] at h
      by_cases hr : r2 = []
      · rw [if_pos hr] at h
        by_cases hn : (l2.map Prod.fst).Nodup
        · rw [if_pos hn] at h
          injection h with h2
          exact h2 ▸ hn
        · rw [if_neg hn] at h
          exact Option.noConfusion h
      · rw [if_neg hr] at h
        exact Option.noConfusion h

theorem mdiDocs_keys (g : Nat → String) (t : Nat) (docs : DocsMap) (im : ImagesMap)
    (n : Nat) (ch : Bool) :
    ((mdiDocs g t docs im n ch).1).map Prod.fst = docs.map Prod.fst := by
  induction docs generalizing im n ch with
  | nil => rfl
  | cons e rest ih =>
    obtain ⟨k, d⟩ := e
    by_cases h0 : d.content = "" <;> simp [mdiDocs, h0, ih]

theorem msdDocs_keys (t : Nat) (docs : DocsMap) (s : Store) (ch : Bool) :
    ((msdDocs t docs s ch).1).map Prod.fst = docs.map Prod.fst := by
  induction docs generalizing s ch with
  | nil => rfl
  | cons e rest ih =>
    obtain ⟨k, d⟩ := e
    by_cases hb : d.content ≠ "" ∧ jsTrim d.content.data ≠ [] <;> simp [msdDocs, hb, ih]

theorem migrateDocsImages_keys (g : Nat → String) (gn t : Nat) (s : Store) (docs : DocsMap) :
    ((migrateDocsImages g gn t s docs).1).map Prod.fst = docs.map Prod.fst :=
  mdiDocs_keys g t docs (loadImagesFromStorage s) gn false

theorem migrateSplitDocs_keys (t : Nat) (s : Store) (docs : DocsMap) :
    ((migrateSplitDocs t s docs).1).map Prod.fst = docs.map Prod.fst :=
  msdDocs_keys t docs s false

theorem loadDocsFromStorage_keys_nodup (g : Nat → String) (gn t : Nat) (s : Store) :
    (((loadDocsFromStorage g gn t s).1).map Prod.fst).Nodup := by
  unfold loadDocsFromStorage
  cases hr : getItem s DOCS_KEY with
  | none => simp
  | some raw =>
    by_cases hne : raw = ""
    · simp [hne]
    · cases hp : parseDocs raw with
      | none => simp [hne, hp]
      | some l =>
        have hl := parseDocs_nodup raw l hp
        by_cases h2 : getStorageVersion s < 2 <;> by_cases h3 : getStorageVersion s < 3 <;>
          simp [hne, hp, h2, h3, migrateDocsImages_keys, migrateSplitDocs_keys, hl]

theorem cfuLoop1_cons_none (id : String) (r : Doc) (rest docs : DocsMap) (ch : Bool)
    (h : assocGet docs id = none) :
    cfuLoop1 ((id, r) :: rest) docs ch = cfuLoop1 rest (assocSet docs id r) true := by
  simp [cfuLoop1, h]

theorem cfuLoop1_cons_diff (id : String) (r l : Doc) (rest docs : DocsMap) (ch : Bool)
    (h : assocGet docs id = some l) (hts : l.lastSaved ≠ r.lastSaved) :
    cfuLoop1 ((id, r) :: rest) docs ch = cfuLoop1 rest (assocSet docs id r) true := by
  simp [cfuLoop1, h, hts]

theorem cfuLoop1_cons_same (id : String) (r l : Doc) (rest docs : DocsMap) (ch : Bool)
    (h : assocGet docs id = some l) (hts : l.lastSaved = r.lastSaved) :
    cfuLoop1 ((id, r) :: rest) docs ch = cfuLoop1 rest docs ch := by
  simp [cfuLoop1, h, hts]

theorem cfuLoop2_cons_none (remote : DocsMap) (k0 : String) (rest : List String)
    (docs : DocsMap) (ch : Bool) (h : assocGet remote k0 = none) :
    cfuLoop2 remote (k0 :: rest) docs ch = cfuLoop2 remote rest (assocDel docs k0) true := by
  simp [cfuLoop2, h]

theorem cfuLoop2_cons_some (remote : DocsMap) (k0 : String) (rest : List String)
    (docs : DocsMap) (ch : Bool) (r0 : Doc) (h : assocGet remote k0 = some r0) :
    cfuLoop2 remote (k0 :: rest) docs ch = cfuLoop2 remote rest docs ch := by
  simp [cfuLoop2, h]

theorem cfuLoop1_get_not_mem (remote docs : DocsMap) (ch : Bool) (id : String)
    (h : id ∉ remote.map Prod.fst) :
    assocGet (cfuLoop1 remote docs ch).1 id = assocGet docs id := by
  induction remote generalizing docs ch with
  | nil => rfl
  | cons e rest ih =>
    obtain ⟨k0, r0⟩ := e
    simp only [List.map_cons, List.mem_cons] at h
    push_neg at h
    have hne : k0 ≠ id := Ne.symm h.1
    cases hg : assocGet docs k0 with
    | none =>
      rw [cfuLoop1_cons_none k0 r0 rest docs ch hg,
        ih (assocSet docs k0 r0) true h.2, assocGet_set_ne docs k0 id r0 hne]
    | some l =>
      by_cases hts : l.lastSaved = r0.lastSaved
      · rw [cfuLoop1_cons_same k0 r0 l rest docs ch hg hts, ih docs ch h.2]
      · rw [cfuLoop1_cons_diff k0 r0 l rest docs ch hg hts,
          ih (assocSet docs k0 r0) true h.2, assocGet_set_ne docs k0 id r0 hne]

theorem cfuLoop1_get (remote docs : DocsMap) (ch : Bool) (id : String) (r : Doc)
    (hnr : (remote.map Prod.fst).Nodup) (hr : assocGet remote id = some r) :
    assocGet (cfuLoop1 remote docs ch).1 id =
      (match assocGet docs id with
       | none => some r
       | some l => if l.lastSaved = r.lastSaved then some l else some r) := by
  induction remote generalizing docs ch with
  | nil => simp [assocGet] at hr
  | cons e rest ih =>
    obtain ⟨k0, r0⟩ := e
    simp only [List.map_cons, List.nodup_cons] at hnr
    by_cases h0 : k0 = id
    · subst h0
      have hrr : r0 = r := by simpa [assocGet] using hr
      subst hrr
      cases hg : assocGet docs k0 with
      | none =>
        rw [cfuLoop1_cons_none k0 r0 rest docs ch hg,
          cfuLoop1_get_not_mem rest (assocSet docs k0 r0) true k0 hnr.1,
          assocGet_set_self docs k0 r0]
      | some l =>
        by_cases hts : l.lastSaved = r0.lastSaved
        · rw [cfuLoop1_cons_same k0 r0 l rest docs ch hg hts,
            cfuLoop1_get_not_mem rest docs ch k0 hnr.1, hg]
          simp [hts]
        · rw [cfuLoop1_cons_diff k0 r0 l rest docs ch hg hts,
            cfuLoop1_get_not_mem rest (assocSet docs k0 r0) true k0 hnr.1,
            assocGet_set_self docs k0 r0]
          simp [hts]
    · have hr' : assocGet rest id = some r := by
        rw [show assocGet ((k0, r0) :: rest) id = assocGet rest id by simp [assocGet, h0]] at hr
        exact hr
      cases hg : assocGet docs k0 with
      | none =>
        rw [cfuLoop1_cons_none k0 r0 rest docs ch hg,
          ih (assocSet docs k0 r0) true hnr.2 hr', assocGet_set_ne docs k0 id r0 h0]
      | some l =>
        by_cases hts : l.lastSaved = r0.lastSaved
        · rw [cfuLoop1_cons_same k0 r0 l rest docs ch hg hts, ih docs ch hnr.2 hr']
        · rw [cfuLoop1_cons_diff k0 r0 l rest docs ch hg hts,
            ih (assocSet docs k0 r0) true hnr.2 hr', assocGet_set_ne docs k0 id r0 h0]

theorem cfuLoop1_changed_true (remote docs : DocsMap) :
    (cfuLoop1 remote docs true).2 = true := by
  induction remote generalizing docs with
  | nil => rfl
  | cons e rest ih =>
    obtain ⟨id, r⟩ := e
    cases hg : assocGet docs id with
    | none => rw [cfuLoop1_cons_none id r rest docs true hg]; exact ih (assocSet docs id r)
    | some l =>
      by_cases hts : l.lastSaved = r.lastSaved
      · rw [cfuLoop1_cons_same id r l rest docs true hg hts]; exact ih docs
      · rw [cfuLoop1_cons_diff id r l rest docs true hg hts]; exact ih (assocSet docs id r)

theorem cfuLoop1_changed_of_diff (remote docs : DocsMap) (ch : Bool) (id : String)
    (r l : Doc) (hr : assocGet remote id = some r) (hl : assocGet docs id = some l)
    (hts : l.lastSaved ≠ r.lastSaved) :
    (cfuLoop1 remote docs ch).2 = true := by
  induction remote generalizing docs ch with
  | nil => simp [assocGet] at hr
  | cons e rest ih =>
    obtain ⟨k0, r0⟩ := e
    by_cases h0 : k0 = id
    · subst h0
      have hrr : r0 = r := by simpa [assocGet] using hr
      subst hrr
      rw [cfuLoop1_cons_diff k0 r0 l rest docs ch hl hts]
      exact cfuLoop1_changed_true rest (assocSet docs k0 r0)
    · have hr' : assocGet rest id = some r := by
        rw [show assocGet ((k0, r0) :: rest) id = assocGet rest id by simp [assocGet, h0]] at hr
        exact hr
      cases hg : assocGet docs k0 with
      | none =>
        rw [cfuLoop1_cons_none k0 r0 rest docs ch hg]
        exact ih (assocSet docs k0 r0) true hr'
          (by rw [assocGet_set_ne docs k0 id r0 h0]; exact hl)
      | some l0 =>
        by_cases hts0 : l0.lastSaved = r0.lastSaved
        · rw [cfuLoop1_cons_same k0 r0 l0 rest docs ch hg hts0]
          exact ih docs ch hr' hl
        · rw [cfuLoop1_cons_diff k0 r0 l0 rest docs ch hg hts0]
          exact ih (assocSet docs k0 r0) true hr'
            (by rw [assocGet_set_ne docs k0 id r0 h0]; exact hl)

theorem cfuLoop2_get (remote : DocsMap) (ks : List String) (docs : DocsMap) (ch : Bool)
    (id : String) :
    assocGet (cfuLoop2 remote ks docs ch).1 id =
      (if id ∈ ks ∧ assocGet remote id = none then none else assocGet docs id) := by
  induction ks generalizing docs ch with
  | nil => simp [cfuLoop2]
  | cons k0 rest ih =>
    cases hg : assocGet remote k0 with
    | none =>
      rw [cfuLoop2_cons_none remote k0 rest docs ch hg, ih (assocDel docs k0) true]
      by_cases h0 : k0 = id
      · subst h0
        rw [assocGet_del_self docs k0]
        simp [hg]
      · rw [assocGet_del_ne docs k0 id h0]
        by_cases hmem : id ∈ rest <;> simp [hmem, h0, Ne.symm h0]
    | some r0 =>
      rw [cfuLoop2_cons_some remote k0 rest docs ch r0 hg, ih docs ch]
      by_cases h0 : k0 = id
      · subst h0
        by_cases hmem : k0 ∈ rest <;> simp [hmem, hg]
      · by_cases hmem : id ∈ rest <;> simp [hmem, h0, Ne.symm h0]

theorem cfuLoop2_changed_true (remote : DocsMap) (ks : List String) (docs : DocsMap) :
    (cfuLoop2 remote ks docs true).2 = true := by
  induction ks generalizing docs with
  | nil => rfl
  | cons k0 rest ih =>
    cases hg : assocGet remote k0 with
    | none => rw [cfuLoop2_cons_none remote k0 rest docs true hg]; exact ih (assocDel docs k0)
    | some r0 => rw [cfuLoop2_cons_some remote k0 rest docs true r0 hg]; exact ih docs

theorem checkForExternalUpdates_docs_changed (g : Nat → String) (gn t : Nat) (s : Store)
    (docs : DocsMap) (cid : Option String) (lk : Nat) (hR hC : Bool) :
    (checkForExternalUpdates g gn t s docs cid lk hR hC).docs =
      (cfuLoop2 (loadDocsFromStorage g gn t s).1
        (((cfuLoop1 (loadDocsFromStorage g gn t s).1 docs false).1).map Prod.fst)
        (cfuLoop1 (loadDocsFromStorage g gn t s).1 docs false).1
        (cfuLoop1 (loadDocsFromStorage g gn t s).1 docs false).2).1 ∧
    (checkForExternalUpdates g gn t s docs cid lk hR hC).changed =
      (cfuLoop2 (loadDocsFromStorage g gn t s).1
        (((cfuLoop1 (loadDocsFromStorage g gn t s).1 docs false).1).map Prod.fst)
        (cfuLoop1 (loadDocsFromStorage g gn t s).1 docs false).1
        (cfuLoop1 (loadDocsFromStorage g gn t s).1 docs false).2).2 :=
  ⟨rfl, rfl⟩

/-- C1 counterexample: local doc `A` has `lastSaved = 100`, the remote
snapshot holds `A` with `lastSaved = 50` (a lower timestamp) — the claim
says the local entry is left unchanged, but `checkForExternalUpdates`
overwrites it with the remote copy and reports `changed = true` (the
code's test is `!==`, not `<`). -/
theorem c1_counterexample :
    (checkForExternalUpdates (fun _ => "") 0 0
        [(STORAGE_VERSION_KEY, "4"), (DOCS_KEY, encodeDocs [("A", ⟨"A", "remote", "", 50, "serif"⟩)])]
        [("A", ⟨"A", "local", "", 100, "serif"⟩)] none 0 true true).docs =
      [("A", ⟨"A", "remote", "", 50, "serif"⟩)] ∧
    (checkForExternalUpdates (fun _ => "") 0 0
        [(STORAGE_VERSION_KEY, "4"), (DOCS_KEY, encodeDocs [("A", ⟨"A", "remote", "", 50, "serif"⟩)])]
        [("A", ⟨"A", "local", "", 100, "serif"⟩)] none 0 true true).changed = true ∧
    (assocGet (loadDocsFromStorage (fun _ => "") 0 0
        [(STORAGE_VERSION_KEY, "4"), (DOCS_KEY, encodeDocs [("A", ⟨"A", "remote", "", 50, "serif"⟩)])]).1
        "A" = some ⟨"A", "remote", "", 50, "serif"⟩) := by
  refine ⟨by decide, by decide, by decide⟩

/-- C1 (amended): for a non-open document id present both locally and in
the remote snapshot, `checkForExternalUpdates` leaves the local entry
unchanged exactly when the two `lastSaved` values are equal; whenever they
differ — whether the remote one is lower (e.g. 50 against 100) or higher
(e.g. 200 against 100) — it overwrites the local entry with the remote
copy and returns `changed = true`. -/
theorem c1_amended (g : Nat → String) (gn t : Nat) (s : Store) (docs : DocsMap)
    (cid : Option String) (lk : Nat) (hR hC : Bool) (id : String) (r l : Doc)
    (hr : assocGet (loadDocsFromStorage g gn t s).1 id = some r)
    (hl : assocGet docs id = some l) (hcur : cid ≠ some id) :
    (l.lastSaved = r.lastSaved →
      assocGet (checkForExternalUpdates g gn t s docs cid lk hR hC).docs id = some l) ∧
    (l.lastSaved ≠ r.lastSaved →
      assocGet (checkForExternalUpdates g gn t s docs cid lk hR hC).docs id = some r ∧
      (checkForExternalUpdates g gn t s docs cid lk hR hC).changed = true) := by
  obtain ⟨hdocs, hch⟩ := checkForExternalUpdates_docs_changed g gn t s docs cid lk hR hC
  have hnr := loadDocsFromStorage_keys_nodup g gn t s
  have hget1 := cfuLoop1_get (loadDocsFromStorage g gn t s).1 docs false id r hnr hr
  rw [hl] at hget1
  have hget2 := cfuLoop2_get (loadDocsFromStorage g gn t s).1
    (((cfuLoop1 (loadDocsFromStorage g gn t s).1 docs false).1).map Prod.fst)
    (cfuLoop1 (loadDocsFromStorage g gn t s).1 docs false).1
    (cfuLoop1 (loadDocsFromStorage g gn t s).1 docs false).2 id
  rw [hr] at hget2
  simp only [Option.some_ne_none, and_false, if_neg (by simp : ¬ False)] at hget2
  constructor
  · intro hts
    rw [hdocs, hget2, hget1]
    simp [hts]
  · intro hts
    constructor
    · rw [hdocs, hget2, hget1]
      simp [hts]
    · rw [hch]
      have h1 := cfuLoop1_changed_of_diff (loadDocsFromStorage g gn t s).1 docs false id r l
        hr hl hts
      rw [h1]
      exact cfuLoop2_changed_true (loadDocsFromStorage g gn t s).1 _ _

/-- Witness for C1 (amended): remote `lastSaved = 200` against local `100`
overwrites and reports `changed`. -/
theorem c1_amended_witness :
    ((100 : Nat) = 200 →
      assocGet (checkForExternalUpdates (fun _ => "") 0 0
        [(STORAGE_VERSION_KEY, "4"), (DOCS_KEY, encodeDocs [("A", ⟨"A", "r", "", 200, ""⟩)])]
        [("A", ⟨"A", "l", "", 100, ""⟩)] none 0 true true).docs "A" =
        some ⟨"A", "l", "", 100, ""⟩) ∧
    ((100 : Nat) ≠ 200 →
      assocGet (checkForExternalUpdates (fun _ => "") 0 0
        [(STORAGE_VERSION_KEY, "4"), (DOCS_KEY, encodeDocs [("A", ⟨"A", "r", "", 200, ""⟩)])]
        [("A", ⟨"A", "l", "", 100, ""⟩)] none 0 true true).docs "A" =
        some ⟨"A", "r", "", 200, ""⟩ ∧
      (checkForExternalUpdates (fun _ => "") 0 0
        [(STORAGE_VERSION_KEY, "4"), (DOCS_KEY, encodeDocs [("A", ⟨"A", "r", "", 200, ""⟩)])]
        [("A", ⟨"A", "l", "", 100, ""⟩)] none 0 true true).changed = true) :=
  c1_amended (fun _ => "") 0 0
    [(STORAGE_VERSION_KEY, "4"), (DOCS_KEY, encodeDocs [("A", ⟨"A", "r", "", 200, ""⟩)])]
    [("A", ⟨"A", "l", "", 100, ""⟩)] none 0 true true "A"
    ⟨"A", "r", "", 200, ""⟩ ⟨"A", "l", "", 100, ""⟩ (by decide) (by decide) (by decide)

theorem checkForExternalUpdates_tail_fields (g : Nat → String) (gn t : Nat) (s : Store)
    (docs : DocsMap) (cid : Option String) (lk : Nat) (hR hC : Bool) :
    (checkForExternalUpdates g gn t s docs cid lk hR hC).newLastKnownSaveTime =
      (cfuTail (loadDocsFromStorage g gn t s).1 cid lk hR).1 ∧
    (checkForExternalUpdates g gn t s docs cid lk hR hC).onReplaceArg =
      (cfuTail (loadDocsFromStorage g gn t s).1 cid lk hR).2 :=
  ⟨rfl, rfl⟩

/-- C2 counterexample: `currentId` is the non-null empty string, the open
document (id `""`) is present remotely with `lastSaved = 99 > 0`, yet
`onReplace` is not invoked and no watermark is returned, because the code's
guard `if (!currentId)` treats the empty string like `null`. -/
theorem c2_counterexample :
    (assocGet (loadDocsFromStorage (fun _ => "") 0 0
        [(STORAGE_VERSION_KEY, "4"), (DOCS_KEY, encodeDocs [("", ⟨"", "t", "", 99, ""⟩)])]).1 "" =
      some ⟨"", "t", "", 99, ""⟩) ∧
    (checkForExternalUpdates (fun _ => "") 0 0
        [(STORAGE_VERSION_KEY, "4"), (DOCS_KEY, encodeDocs [("", ⟨"", "t", "", 99, ""⟩)])]
        [] (some "") 0 true true).onReplaceArg = none ∧
    (checkForExternalUpdates (fun _ => "") 0 0
        [(STORAGE_VERSION_KEY, "4"), (DOCS_KEY, encodeDocs [("", ⟨"", "t", "", 99, ""⟩)])]
        [] (some "") 0 true true).newLastKnownSaveTime = none := by
  refine ⟨by decide, by decide, by decide⟩

/-- C2 (amended): for every call with a supplied `onReplace` handler and a
non-null, non-empty `currentId`: `onReplace` is invoked with the remote
copy of the open document and `newLastKnownSaveTime` equals that copy's
`lastSaved`, if and only if the open document is present in the remote
snapshot with remote `lastSaved` strictly greater than the caller-supplied
`lastKnownSaveTime`; otherwise `onReplace` is not invoked and the result
carries no `newLastKnownSaveTime`. -/
theorem c2_amended (g : Nat → String) (gn t : Nat) (s : Store) (docs : DocsMap)
    (c : String) (lk : Nat) (hC : Bool) (hc : c ≠ "") :
    (∀ rd, assocGet (loadDocsFromStorage g gn t s).1 c = some rd → lk < rd.lastSaved →
      (checkForExternalUpdates g gn t s docs (some c) lk true hC).onReplaceArg = some rd ∧
      (checkForExternalUpdates g gn t s docs (some c) lk true hC).newLastKnownSaveTime =
        some rd.lastSaved) ∧
    (∀ rd, assocGet (loadDocsFromStorage g gn t s).1 c = some rd → ¬ lk < rd.lastSaved →
      (checkForExternalUpdates g gn t s docs (some c) lk true hC).onReplaceArg = none ∧
      (checkForExternalUpdates g gn t s docs (some c) lk true hC).newLastKnownSaveTime = none) ∧
    (assocGet (loadDocsFromStorage g gn t s).1 c = none →
      (checkForExternalUpdates g gn t s docs (some c) lk true hC).onReplaceArg = none ∧
      (checkForExternalUpdates g gn t s docs (some c) lk true hC).newLastKnownSaveTime = none) := by
  obtain ⟨h1, h2⟩ := checkForExternalUpdates_tail_fields g gn t s docs (some c) lk true hC
  refine ⟨?_, ?_, ?_⟩
  · intro rd hg hts
    exact ⟨by rw [h2]; simp [cfuTail, hc, hg, hts],
           by rw [h1]; simp [cfuTail, hc, hg, hts]⟩
  · intro rd hg hts
    exact ⟨by rw [h2]; simp [cfuTail, hc, hg, hts],
           by rw [h1]; simp [cfuTail, hc, hg, hts]⟩
  · intro hg
    exact ⟨by rw [h2]; simp [cfuTail, hc, hg],
           by rw [h1]; simp [cfuTail, hc, hg]⟩

/-- Witness for C2 (amended): open document `A`, remote `lastSaved = 50`,
watermark `10` — `onReplace` receives the remote copy and the watermark
`50` is returned. -/
theorem c2_amended_witness :
    (checkForExternalUpdates (fun _ => "") 0 0
      [(STORAGE_VERSION_KEY, "4"), (DOCS_KEY, encodeDocs [("A", ⟨"A", "r", "", 50, ""⟩)])]
      [] (some "A") 10 true true).onReplaceArg = some ⟨"A", "r", "", 50, ""⟩ ∧
    (checkForExternalUpdates (fun _ => "") 0 0
      [(STORAGE_VERSION_KEY, "4"), (DOCS_KEY, encodeDocs [("A", ⟨"A", "r", "", 50, ""⟩)])]
      [] (some "A") 10 true true).newLastKnownSaveTime = some (⟨"A", "r", "", 50, ""⟩ : Doc).lastSaved :=
  (c2_amended (fun _ => "") 0 0
    [(STORAGE_VERSION_KEY, "4"), (DOCS_KEY, encodeDocs [("A", ⟨"A", "r", "", 50, ""⟩)])]
    [] "A" 10 true (by decide)).1 ⟨"A", "r", "", 50, ""⟩ (by decide) (by decide)

/-- C10: after any call to `checkForExternalUpdates`, the in-memory
documents map and the remote snapshot read from storage agree: every id is
present in one exactly when it is present in the other, and the
`lastSaved` of corresponding entries are equal — deletions and creations
by other tabs propagate, regardless of the callbacks supplied. -/
theorem c10_reconciliation_invariant (g : Nat → String) (gn t : Nat) (s : Store)
    (docs : DocsMap) (cid : Option String) (lk : Nat) (hR hC : Bool) (id : String) :
    Option.map Doc.lastSaved
        (assocGet (checkForExternalUpdates g gn t s docs cid lk hR hC).docs id) =
      Option.map Doc.lastSaved (assocGet (loadDocsFromStorage g gn t s).1 id) := by
  obtain ⟨hdocs, _⟩ := checkForExternalUpdates_docs_changed g gn t s docs cid lk hR hC
  have hnr := loadDocsFromStorage_keys_nodup g gn t s
  have hget2 := cfuLoop2_get (loadDocsFromStorage g gn t s).1
    (((cfuLoop1 (loadDocsFromStorage g gn t s).1 docs false).1).map Prod.fst)
    (cfuLoop1 (loadDocsFromStorage g gn t s).1 docs false).1
    (cfuLoop1 (loadDocsFromStorage g gn t s).1 docs false).2 id
  rw [hdocs, hget2]
  cases hg : assocGet (loadDocsFromStorage g gn t s).1 id with
  | some r =>
    simp only [hg, Option.some_ne_none, and_false, if_neg (by simp : ¬ False)]
    rw [cfuLoop1_get (loadDocsFromStorage g gn t s).1 docs false id r hnr hg]
    cases assocGet docs id with
    | none => rfl
    | some l =>
      by_cases hts : l.lastSaved = r.lastSaved
      · simp [hts]
      · simp [hts]
  | none =>
    by_cases hmem :
        id ∈ (((cfuLoop1 (loadDocsFromStorage g gn t s).1 docs false).1).map Prod.fst)
    · simp [hmem, hg]
    · simp only [hg, hmem, false_and, if_neg (by simp : ¬ False)]
      rw [assocGet_eq_none_of_not_mem _ id hmem]

/-- C7: evaluation of the code at the failing input.  Both stored images
are unreferenced (no document mentions any placeholder), yet the sweep
removes only `notes:image:a`: removing the entry at index 0 shifts
`notes:image:b` into index 0 while the loop counter advances to 1, which
is already the new length — `notes:image:b` is skipped and survives. -/
theorem c7_sweep_skips_shifted_key :
    findReferencedImageIds [] [("notes:image:a", "u"), ("notes:image:b", "v")] = [] ∧
    removeUnreferencedImages [] [("notes:image:a", "u"), ("notes:image:b", "v")] =
      ([("notes:image:b", "v")], true) := by
  refine ⟨by decide, by decide⟩

theorem mdiDocs_shape (g : Nat → String) (t : Nat) (docs : DocsMap) (im : ImagesMap)
    (n : Nat) (ch : Bool) :
    List.Forall₂ (fun (e e' : String × Doc) => e'.1 = e.1 ∧
      (e'.2 = e.2 ∨ (e'.2.lastSaved = t ∧ e'.2.id = e.2.id ∧ e'.2.title = e.2.title ∧
        e'.2.font = e.2.font ∧ e'.2.content ≠ e.2.content)))
      docs (mdiDocs g t docs im n ch).1 := by
  induction docs generalizing im n ch with
  | nil => exact List.Forall₂.nil
  | cons e rest ih =>
    obtain ⟨k, d⟩ := e
    by_cases h0 : d.content = ""
    · simp only [mdiDocs, if_pos h0]
      exact List.Forall₂.cons ⟨rfl, Or.inl rfl⟩ (ih _ _ _)
    · simp only [mdiDocs, if_neg h0]
      refine List.Forall₂.cons ?_ (ih _ _ _)
      set caps := imgScan d.content.data.length d.content.data with hcaps
      set a := applyCaptures g caps im n d.content.data with ha
      by_cases hcond : (ch || !caps.isEmpty) = true ∧ a.2.2 ≠ d.content.data
      · rw [if_pos hcond]
        refine ⟨rfl, Or.inr ⟨rfl, rfl, rfl, rfl, ?_⟩⟩
        intro hx
        apply hcond.2
        have hx2 : (⟨a.2.2⟩ : String).data = d.content.data := congrArg String.data hx
        simpa using hx2
      · rw [if_neg hcond]
        exact ⟨rfl, Or.inl rfl⟩

/-- C5 counterexample: a body holding two inline images whose data URLs
overlap (`data:a` is a proper prefix of `data:ab`).  Replacing all
occurrences of `data:a` corrupts the second tag, so the extracted
`data:ab` (stored under the fresh id `B`) is never replaced by its
placeholder `notes:image:B`; the final body is
`<img src="notes:image:A"><img src="notes:image:Ab">`. -/
theorem c5_counterexample :
    (migrateDocsImages (fun nn => if nn = 0 then "A" else "B") 0 7 []
        [("d", ⟨"d", "", "<img src=\"data:a\"><img src=\"data:ab\">", 0, ""⟩)]).1 =
      [("d", ⟨"d", "", "<img src=\"notes:image:A\"><img src=\"notes:image:Ab\">", 7, ""⟩)] ∧
    assocGet (loadImagesFromStorage
        (migrateDocsImages (fun nn => if nn = 0 then "A" else "B") 0 7 []
          [("d", ⟨"d", "", "<img src=\"data:a\"><img src=\"data:ab\">", 0, ""⟩)]).2.1) "B" =
      some "data:ab" ∧
    strContains "<img src=\"notes:image:A\"><img src=\"notes:image:Ab\">" "notes:image:B" =
      false := by
  refine ⟨by decide, by decide, by decide⟩

/-- C5 (amended): `migrateDocsImages` rewrites bodies in place — every
document either is returned unchanged or keeps its id, title and font,
gets a changed content and has its `lastSaved` bumped to the migration
time; the textual global replacement can corrupt a data URL that has
another extracted data URL as a substring instead of replacing it (see the
counterexample).  For a body with one inline base64 image the round-trip
holds: afterwards the body contains exactly one placeholder (scanning for
the placeholder pattern yields exactly the fresh id) and the image store
contains one entry whose data URL equals the original. -/
theorem c5_amended :
    (∀ (g : Nat → String) (gn t : Nat) (s : Store) (docs : DocsMap),
      List.Forall₂ (fun (e e' : String × Doc) => e'.1 = e.1 ∧
        (e'.2 = e.2 ∨ (e'.2.lastSaved = t ∧ e'.2.id = e.2.id ∧ e'.2.title = e.2.title ∧
          e'.2.font = e.2.font ∧ e'.2.content ≠ e.2.content)))
        docs (migrateDocsImages g gn t s docs).1) ∧
    ((migrateDocsImages (fun _ => "img-1") 0 7 []
        [("d", ⟨"d", "t", "<img src=\"data:image/png;base64,AA\">", 0, "f"⟩)]).1 =
      [("d", ⟨"d", "t", "<img src=\"notes:image:img-1\">", 7, "f"⟩)] ∧
     phScan "<img src=\"notes:image:img-1\">".data = ["img-1"] ∧
     loadImagesFromStorage (migrateDocsImages (fun _ => "img-1") 0 7 []
        [("d", ⟨"d", "t", "<img src=\"data:image/png;base64,AA\">", 0, "f"⟩)]).2.1 =
      [("img-1", "data:image/png;base64,AA")] ∧
     (migrateDocsImages (fun _ => "img-1") 0 7 []
        [("d", ⟨"d", "t", "<img src=\"data:image/png;base64,AA\">", 0, "f"⟩)]).2.2.2 = true) := by
  constructor
  · intro g gn t s docs
    exact mdiDocs_shape g t docs (loadImagesFromStorage s) gn false
  · refine ⟨by decide, by decide, by decide, by decide⟩

theorem dropWhile_eq_nil_all (p : Char → Bool) (l : List Char) (h : l.dropWhile p = []) :
    ∀ c ∈ l, p c = true := by
  induction l with
  | nil => intro c hc; simp at hc
  | cons c0 rest ih =>
    intro c hc
    by_cases hp : p c0 = true
    · rw [List.dropWhile_cons, if_pos hp] at h
      rcases List.mem_cons.1 hc with hh | hh
      · rw [hh]; exact hp
      · exact ih h c hh
    · rw [List.dropWhile_cons, if_neg hp] at h
      exact List.noConfusion h

theorem dropWhile_cons_head_false (p : Char → Bool) (l t : List Char) (c : Char)
    (h : l.dropWhile p = c :: t) : p c = false := by
  induction l with
  | nil => exact List.noConfusion h
  | cons c0 rest ih =>
    by_cases hp : p c0 = true
    · rw [List.dropWhile_cons, if_pos hp] at h
      exact ih h
    · rw [List.dropWhile_cons, if_neg hp] at h
      injection h with h1 _
      rw [← h1]
      simpa using hp

theorem jsTrim_nil_all_ws (cs : List Char) (h : jsTrim cs = []) :
    ∀ c ∈ cs, c.isWhitespace = true := by
  unfold jsTrim at h
  rw [List.reverse_eq_nil_iff] at h
  have hd : (cs.dropWhile Char.isWhitespace) = [] := by
    cases hcase : cs.dropWhile Char.isWhitespace with
    | nil => rfl
    | cons c0 rest =>
      exfalso
      have hc0 : Char.isWhitespace c0 = false :=
        dropWhile_cons_head_false Char.isWhitespace cs rest c0 hcase
      rw [hcase] at h
      have hall := dropWhile_eq_nil_all Char.isWhitespace (c0 :: rest).reverse h
      have : Char.isWhitespace c0 = true := hall c0 (by simp)
      rw [hc0] at this
      exact Bool.noConfusion this
  intro c hc
  exact dropWhile_eq_nil_all Char.isWhitespace cs hd c hc

theorem ws_toLower_ne_lt (c : Char) (h : c.isWhitespace = true) : ciEq '<' c = false := by
  simp only [Char.isWhitespace] at h
  rcases Bool.or_eq_true_iff.1 h with h1 | h1
  · rcases Bool.or_eq_true_iff.1 h1 with h2 | h2
    · rcases Bool.or_eq_true_iff.1 h2 with h3 | h3
      · rw [show c = ' ' by exact decide_eq_true_eq.mp h3]; decide
      · rw [show c = '\t' by exact decide_eq_true_eq.mp h3]; decide
    · rw [show c = '\r' by exact decide_eq_true_eq.mp h2]; decide
  · rw [show c = '\n' by exact decide_eq_true_eq.mp h1]; decide

theorem imgMatchHere_ws_none (c : Char) (rest : List Char) (h : c.isWhitespace = true) :
    imgMatchHere (c :: rest) = none := by
  unfold imgMatchHere
  rw [if_neg ?_]
  intro hp
  have : ciPref "<img".data (c :: rest) = (ciEq '<' c && ciPref "img".data rest) := rfl
  rw [this, ws_toLower_ne_lt c h] at hp
  simp at hp

theorem imgScan_ws (fuel : Nat) :
    ∀ cs : List Char, (∀ c ∈ cs, c.isWhitespace = true) → imgScan fuel cs = [] := by
  induction fuel with
  | zero =>
    intro cs h
    cases cs <;> rfl
  | succ fuel ih =>
    intro cs h
    cases cs with
    | nil => rfl
    | cons c rest =>
      have hc : c.isWhitespace = true := h c (by simp)
      have hm := imgMatchHere_ws_none c rest hc
      show (match imgMatchHere (c :: rest) with
            | some (cap, after) => cap :: imgScan fuel after
            | none => imgScan fuel rest) = []
      rw [hm]
      exact ih rest (fun c2 hc2 => h c2 (by simp [hc2]))

theorem mdiDocs_noop (g : Nat → String) (t : Nat) (docs : DocsMap) (im : ImagesMap)
    (n : Nat) (ch : Bool) (h : ∀ e ∈ docs, docNonblank e.2 = false) :
    mdiDocs g t docs im n ch = (docs, im, n, ch) := by
  induction docs generalizing im n ch with
  | nil => rfl
  | cons e rest ih =>
    obtain ⟨k, d⟩ := e
    have hd : docNonblank d = false := h (k, d) (by simp)
    have hrest : ∀ e ∈ rest, docNonblank e.2 = false := fun e he => h e (by simp [he])
    rw [docNonblank_false_iff] at hd
    push_neg at hd
    by_cases h0 : d.content = ""
    · simp only [mdiDocs, if_pos h0, ih im n ch hrest]
    · have htrim : jsTrim d.content.data = [] := hd h0
      have hws := jsTrim_nil_all_ws d.content.data htrim
      have hscan : imgScan d.content.data.length d.content.data = [] :=
        imgScan_ws d.content.data.length d.content.data hws
      simp only [mdiDocs, if_neg h0, hscan]
      have happ : applyCaptures g [] im n d.content.data = (im, n, d.content.data) := rfl
      rw [happ]
      simp only [List.isEmpty_nil, Bool.not_true, Bool.or_false]
      rw [if_neg (by intro hx; exact hx.2 rfl)]
      rw [ih im n ch hrest]

theorem mdiDocs_ch_mono (g : Nat → String) (t : Nat) (docs : DocsMap) (im : ImagesMap)
    (n : Nat) : (mdiDocs g t docs im n true).2.2.2 = true := by
  induction docs generalizing im n with
  | nil => rfl
  | cons e rest ih =>
    obtain ⟨k, d⟩ := e
    by_cases h0 : d.content = ""
    · simp only [mdiDocs, if_pos h0]
      exact ih im n
    · simp only [mdiDocs, if_neg h0, Bool.true_or]
      exact ih _ _

theorem mdiDocs_nochange (g : Nat → String) (t : Nat) (docs : DocsMap) (im : ImagesMap)
    (n : Nat) (ch : Bool) (h : (mdiDocs g t docs im n ch).2.2.2 = false) :
    mdiDocs g t docs im n ch = (docs, im, n, ch) := by
  induction docs generalizing im n ch with
  | nil => rfl
  | cons e rest ih =>
    obtain ⟨k, d⟩ := e
    by_cases h0 : d.content = ""
    · simp only [mdiDocs, if_pos h0] at h ⊢
      rw [ih im n ch h]
    · simp only [mdiDocs, if_neg h0] at h ⊢
      by_cases hch2 : (ch || !(imgScan d.content.data.length d.content.data).isEmpty) = true
      · exfalso
        rw [hch2] at h
        rw [mdiDocs_ch_mono] at h
        exact Bool.noConfusion h
      · have hor : (ch || !(imgScan d.content.data.length d.content.data).isEmpty) = false := by
          cases hx : (ch || !(imgScan d.content.data.length d.content.data).isEmpty)
          · rfl
          · exact absurd hx hch2
        obtain ⟨hch, hne⟩ := Bool.or_eq_false_iff.mp hor
        have hcaps2 : imgScan d.content.data.length d.content.data = [] := by
          have hie : (imgScan d.content.data.length d.content.data).isEmpty = true := by
            cases hx : (imgScan d.content.data.length d.content.data).isEmpty
            · rw [hx] at hne; simp at hne
            · rfl
          rwa [List.isEmpty_iff] at hie
        rw [hcaps2] at h ⊢
        have happ : applyCaptures g [] im n d.content.data = (im, n, d.content.data) := rfl
        rw [happ] at h ⊢
        simp only [List.isEmpty_nil, Bool.not_true, Bool.or_false, hch] at h ⊢
        have hcond : ¬(false = true ∧ d.content.data ≠ d.content.data) := by
          intro hx
          exact Bool.noConfusion hx.1
        simp only [if_neg hcond] at h ⊢
        rw [ih im n false h]

theorem msdDocs_noop (t : Nat) (docs : DocsMap) (s : Store) (ch : Bool)
    (h : ∀ e ∈ docs, docNonblank e.2 = false) :
    msdDocs t docs s ch = (docs, s, ch) := by
  induction docs generalizing s ch with
  | nil => rfl
  | cons e rest ih =>
    obtain ⟨k, d⟩ := e
    have hd : docNonblank d = false := h (k, d) (by simp)
    rw [docNonblank_false_iff] at hd
    simp only [msdDocs, if_neg hd]
    rw [ih s ch (fun e he => h e (by simp [he]))]

theorem msdDocs_nochange (t : Nat) (docs : DocsMap) (s : Store) (ch : Bool)
    (h : (msdDocs t docs s ch).2.2 = false) :
    msdDocs t docs s ch = (docs, s, ch) := by
  have hc := msdDocs_changed t docs s ch
  rw [h] at hc
  have hany : docs.any (fun e => docNonblank e.2) = false := by
    cases hx : docs.any (fun e => docNonblank e.2)
    · rfl
    · rw [hx] at hc; simp at hc
  apply msdDocs_noop
  intro e he
  have := List.any_eq_false.mp hany e he
  simpa using this

theorem msdDocs_blank_out (t : Nat) (docs : DocsMap) (s : Store) (ch : Bool) :
    ∀ e ∈ (msdDocs t docs s ch).1, docNonblank e.2 = false := by
  induction docs generalizing s ch with
  | nil => intro e he; simp [msdDocs] at he
  | cons e0 rest ih =>
    obtain ⟨k, d⟩ := e0
    intro e he
    by_cases hb : d.content ≠ "" ∧ jsTrim d.content.data ≠ []
    · simp only [msdDocs, if_pos hb] at he
      rcases List.mem_cons.1 he with hh | hh
      · rw [hh]
        simp [docNonblank]
      · exact ih (saveDocContent k d.content s) true e hh
    · simp only [msdDocs, if_neg hb] at he
      rcases List.mem_cons.1 he with hh | hh
      · rw [hh]
        exact (docNonblank_false_iff d).2 hb
      · exact ih s ch e hh

theorem parseImages_nodup (raw : String) (l : ImagesMap) (h : parseImages raw = some l) :
    (l.map Prod.fst).Nodup := by
  unfold parseImages at h
  cases hd : decNatU raw.data with
  | none => rw [hd] at h; exact Option.noConfusion h
  | some p =>
    obtain ⟨n, r⟩ := p
    simp only [hd] at h
    cases he : decImgEntries n r with
    | none =>
      simp only [he] at h
      exact Option.noConfusion h
    | some q =>
      obtain ⟨l2, r2⟩ := q
      simp only [he] at h
      by_cases hr : r2 = []
      · rw [if_pos hr] at h
        by_cases hn : (l2.map Prod.fst).Nodup
        · rw [if_pos hn] at h
          injection h with h2
          exact h2 ▸ hn
        · rw [if_neg hn] at h
          exact Option.noConfusion h
      · rw [if_neg hr] at h
        exact Option.noConfusion h

theorem collectImagesGo_nodup (s : Store) (l : List (String × String)) (out : ImagesMap)
    (h : (out.map Prod.fst).Nodup) :
    (((collectImagesGo s l out).map Prod.fst)).Nodup := by
  induction l generalizing out with
  | nil => exact h
  | cons e rest ih =>
    obtain ⟨k, v⟩ := e
    by_cases hp : IMAGE_KEY_PRE.data.isPrefixOf k.data
    · simp only [collectImagesGo, hp, if_pos]
      cases getItem s k with
      | none => exact ih out h
      | some val =>
        by_cases hv : val = ""
        · simp only [hv, if_pos rfl]
          exact ih out h
        · simp only [if_neg hv]
          exact ih _ (nodup_keys_assocSet out _ val h)
    · simp only [collectImagesGo]
      simp only [Bool.false_eq_true, if_neg (by exact fun hx => hp hx)]
      exact ih out h

theorem loadImagesFromStorage_nodup (s : Store) :
    ((loadImagesFromStorage s).map Prod.fst).Nodup := by
  have hcol : ((collectImages s).map Prod.fst).Nodup :=
    collectImagesGo_nodup s s [] (by simp)
  unfold loadImagesFromStorage
  by_cases he : (collectImages s).isEmpty
  · simp only [he, if_pos rfl]
    cases hg : getItem s IMAGES_KEY with
    | none => exact hcol
    | some raw =>
      by_cases hr : raw = ""
      · simp [hr, hcol]
      · simp only [if_neg hr]
        cases hp : parseImages raw with
        | none => exact hcol
        | some m => exact parseImages_nodup raw m hp
  · simp only [he]
    simp only [Bool.false_eq_true, if_neg (by exact fun hx => he hx)]
    exact hcol

theorem applyCaptures_nodup (g : Nat → String) (caps : List (List Char)) (im : ImagesMap)
    (n : Nat) (nc : List Char) (h : (im.map Prod.fst).Nodup) :
    (((applyCaptures g caps im n nc).1).map Prod.fst).Nodup := by
  induction caps generalizing im n nc with
  | nil => exact h
  | cons cap rest ih =>
    unfold applyCaptures
    cases im.find? (fun e => e.2 == (⟨cap⟩ : String)) with
    | some e => exact ih im n _ h
    | none => exact ih _ (n + 1) _ (nodup_keys_assocSet im (g n) ⟨cap⟩ h)

theorem mdiDocs_im_nodup (g : Nat → String) (t : Nat) (docs : DocsMap) (im : ImagesMap)
    (n : Nat) (ch : Bool) (h : (im.map Prod.fst).Nodup) :
    (((mdiDocs g t docs im n ch).2.1).map Prod.fst).Nodup := by
  induction docs generalizing im n ch with
  | nil => exact h
  | cons e rest ih =>
    obtain ⟨k, d⟩ := e
    by_cases h0 : d.content = ""
    · simp only [mdiDocs, if_pos h0]
      exact ih im n ch h
    · simp only [mdiDocs, if_neg h0]
      exact ih _ _ _ (applyCaptures_nodup g _ im n _ h)

theorem encodeImages_ne_empty (l : ImagesMap) : encodeImages l ≠ "" := by
  intro h
  have := congrArg String.data h
  simp [encodeImages, encNatU] at this

theorem encodeDocs_ne_empty (l : DocsMap) : encodeDocs l ≠ "" := by
  intro h
  have := congrArg String.data h
  simp [encodeDocs, encNatU] at this

theorem imgKey_ne_docs (id : String) : IMAGE_KEY_PRE ++ id ≠ DOCS_KEY :=
  key_ne_of_pre IMAGE_KEY_PRE DOCS_KEY (by decide) id

theorem imgKey_ne_images (id : String) : IMAGE_KEY_PRE ++ id ≠ IMAGES_KEY :=
  key_ne_of_pre IMAGE_KEY_PRE IMAGES_KEY (by decide) id

theorem docDataKey_ne_docs (id : String) : DOC_DATA_PRE ++ id ≠ DOCS_KEY :=
  key_ne_of_pre DOC_DATA_PRE DOCS_KEY (by decide) id

theorem docDataKey_ne_images (id : String) : DOC_DATA_PRE ++ id ≠ IMAGES_KEY :=
  key_ne_of_pre DOC_DATA_PRE IMAGES_KEY (by decide) id

theorem explodeImages_cons_skip_falsy (id imgData : String) (rest : ImagesMap) (s : Store)
    (ch : Bool) (hd : imgData = "") :
    explodeImages ((id, imgData) :: rest) s ch = explodeImages rest s ch := by
  simp [explodeImages, hd]

theorem explodeImages_cons_write_none (id imgData : String) (rest : ImagesMap) (s : Store)
    (ch : Bool) (hd : imgData ≠ "") (hg : getItem s (IMAGE_KEY_PRE ++ id) = none) :
    explodeImages ((id, imgData) :: rest) s ch =
      explodeImages rest (setItem s (IMAGE_KEY_PRE ++ id) imgData) true := by
  simp [explodeImages, hd, hg]

theorem explodeImages_cons_write_empty (id imgData : String) (rest : ImagesMap) (s : Store)
    (ch : Bool) (hd : imgData ≠ "") (hg : getItem s (IMAGE_KEY_PRE ++ id) = some "") :
    explodeImages ((id, imgData) :: rest) s ch =
      explodeImages rest (setItem s (IMAGE_KEY_PRE ++ id) imgData) true := by
  simp [explodeImages, hd, hg]

theorem explodeImages_cons_skip_exists (id imgData : String) (rest : ImagesMap) (s : Store)
    (ch : Bool) (hd : imgData ≠ "") (v : String) (hg : getItem s (IMAGE_KEY_PRE ++ id) = some v)
    (hv : v ≠ "") :
    explodeImages ((id, imgData) :: rest) s ch = explodeImages rest s ch := by
  simp [explodeImages, hd, hg, hv]

theorem explodeImages_frame (parsed : ImagesMap) (s : Store) (ch : Bool) (K : String)
    (hK : ∀ id, IMAGE_KEY_PRE ++ id ≠ K) :
    getItem (explodeImages parsed s ch).1 K = getItem s K := by
  induction parsed generalizing s ch with
  | nil => rfl
  | cons e rest ih =>
    obtain ⟨id, imgData⟩ := e
    by_cases hd : imgData = ""
    · rw [explodeImages_cons_skip_falsy id imgData rest s ch hd]
      exact ih s ch
    · cases hg : getItem s (IMAGE_KEY_PRE ++ id) with
      | none =>
        rw [explodeImages_cons_write_none id imgData rest s ch hd hg, ih _ true]
        exact assocGet_set_ne s (IMAGE_KEY_PRE ++ id) K imgData (hK id)
      | some v =>
        by_cases hv : v = ""
        · subst hv
          rw [explodeImages_cons_write_empty id imgData rest s ch hd hg, ih _ true]
          exact assocGet_set_ne s (IMAGE_KEY_PRE ++ id) K imgData (hK id)
        · rw [explodeImages_cons_skip_exists id imgData rest s ch hd v hg hv]
          exact ih s ch

theorem migrateImagesMapToPerKey_frame (s : Store) (K : String)
    (hK : ∀ id, IMAGE_KEY_PRE ++ id ≠ K) (hKI : K ≠ IMAGES_KEY) :
    getItem (migrateImagesMapToPerKey s).1 K = getItem s K := by
  unfold migrateImagesMapToPerKey
  cases hg : getItem s IMAGES_KEY with
  | none => rfl
  | some raw =>
    by_cases hr : raw = ""
    · simp [hr]
    · simp only [if_neg hr]
      cases hp : parseImages raw with
      | none => rfl
      | some parsed =>
        show getItem (removeItem (explodeImages parsed s false).1 IMAGES_KEY) K = getItem s K
        have h1 : getItem (removeItem (explodeImages parsed s false).1 IMAGES_KEY) K =
            getItem (explodeImages parsed s false).1 K :=
          assocGet_del_ne _ IMAGES_KEY K (Ne.symm hKI)
        rw [h1]
        exact explodeImages_frame parsed s false K hK

theorem perKey_noop_of_none (s : Store) (h : getItem s IMAGES_KEY = none) :
    migrateImagesMapToPerKey s = (s, false) := by
  unfold migrateImagesMapToPerKey
  rw [h]

theorem perKey_noop_of_empty (s : Store) (h : getItem s IMAGES_KEY = some "") :
    migrateImagesMapToPerKey s = (s, false) := by
  unfold migrateImagesMapToPerKey
  rw [h]
  simp

theorem perKey_noop_of_invalid (s : Store) (raw : String) (h : getItem s IMAGES_KEY = some raw)
    (hr : raw ≠ "") (hp : parseImages raw = none) : migrateImagesMapToPerKey s = (s, false) := by
  unfold migrateImagesMapToPerKey
  rw [h]
  simp only [if_neg hr, hp]

theorem perKey_removes_aggregate (s : Store) (raw : String) (parsed : ImagesMap)
    (h : getItem s IMAGES_KEY = some raw) (hr : raw ≠ "") (hp : parseImages raw = some parsed) :
    getItem (migrateImagesMapToPerKey s).1 IMAGES_KEY = none := by
  unfold migrateImagesMapToPerKey
  rw [h]
  simp only [if_neg hr, hp]
  exact assocGet_del_self _ IMAGES_KEY

theorem setStorageVersion_frame (n : Nat) (s : Store) (K : String)
    (hK : K ≠ STORAGE_VERSION_KEY) :
    getItem (setStorageVersion n s) K = getItem s K :=
  assocGet_set_ne s STORAGE_VERSION_KEY K (toString n) (Ne.symm hK)

theorem setStorageVersion_idem (n : Nat) (x : Store) :
    setStorageVersion n (setStorageVersion n x) = setStorageVersion n x :=
  assocSet_self _ STORAGE_VERSION_KEY (toString n)
    (assocGet_set_self x STORAGE_VERSION_KEY (toString n))

theorem perKey_version_idem (x : Store) :
    migrateImagesMapToPerKey
        (setStorageVersion CURRENT_STORAGE_VERSION (migrateImagesMapToPerKey x).1) =
      (setStorageVersion CURRENT_STORAGE_VERSION (migrateImagesMapToPerKey x).1, false) := by
  have hframe : getItem (setStorageVersion CURRENT_STORAGE_VERSION
      (migrateImagesMapToPerKey x).1) IMAGES_KEY =
      getItem (migrateImagesMapToPerKey x).1 IMAGES_KEY :=
    setStorageVersion_frame CURRENT_STORAGE_VERSION _ IMAGES_KEY (by decide)
  cases hg : getItem x IMAGES_KEY with
  | none =>
    apply perKey_noop_of_none
    rw [hframe, perKey_noop_of_none x hg]
    exact hg
  | some raw =>
    by_cases hr : raw = ""
    · subst hr
      apply perKey_noop_of_empty
      rw [hframe, perKey_noop_of_empty x hg]
      exact hg
    · cases hp : parseImages raw with
      | none =>
        apply perKey_noop_of_invalid _ raw
        · rw [hframe, perKey_noop_of_invalid x raw hg hr hp]
          exact hg
        · exact hr
        · exact hp
      | some parsed =>
        apply perKey_noop_of_none
        rw [hframe]
        exact perKey_removes_aggregate x raw parsed hg hr hp

theorem migrateDocsImages_noop (g : Nat → String) (gn t : Nat) (s : Store) (docs : DocsMap)
    (h : ∀ e ∈ docs, docNonblank e.2 = false) :
    migrateDocsImages g gn t s docs = (docs, s, gn, false) := by
  have hm := mdiDocs_noop g t docs (loadImagesFromStorage s) gn false h
  simp [migrateDocsImages, hm]

theorem migrateDocsImages_nochange (g : Nat → String) (gn t : Nat) (s : Store) (docs : DocsMap)
    (h : (migrateDocsImages g gn t s docs).2.2.2 = false) :
    migrateDocsImages g gn t s docs = (docs, s, gn, false) := by
  have h2 : (mdiDocs g t docs (loadImagesFromStorage s) gn false).2.2.2 = false := h
  have hm := mdiDocs_nochange g t docs (loadImagesFromStorage s) gn false h2
  simp [migrateDocsImages, hm]

theorem chainDocs_nodup (s : Store) : ((chainDocs s).map Prod.fst).Nodup := by
  unfold chainDocs
  cases getItem s DOCS_KEY with
  | none => simp
  | some raw =>
    by_cases hr : raw = ""
    · simp [hr]
    · simp only [if_neg hr]
      cases hp : parseDocs raw with
      | none => simp
      | some l =>
        simp only [Option.getD_some]
        exact parseDocs_nodup raw l hp

theorem chainStage12_keys (g : Nat → String) (t : Nat) (s : Store) :
    ((chainStage12 g t s).1).map Prod.fst = (chainDocs s).map Prod.fst := by
  show ((chainM2 g t s).1).map Prod.fst = _
  unfold chainM2 chainM1
  rw [migrateSplitDocs_keys, migrateDocsImages_keys]

theorem chainStage12_blank (g : Nat → String) (t : Nat) (s : Store) :
    ∀ e ∈ (chainStage12 g t s).1, docNonblank e.2 = false := by
  intro e he
  exact msdDocs_blank_out t (chainM1 g t s).1 (chainS1 g t s) false e he

theorem chainStage12_store_docs (g : Nat → String) (t : Nat) (s : Store) :
    (getItem (chainStage12 g t s).2 DOCS_KEY = getItem s DOCS_KEY ∧
      (chainStage12 g t s).1 = chainDocs s) ∨
    getItem (chainStage12 g t s).2 DOCS_KEY = some (encodeDocs (chainStage12 g t s).1) := by
  by_cases hch2 : (chainM2 g t s).2.2 = true
  · right
    show getItem (chainS2 g t s) DOCS_KEY = _
    unfold chainS2
    rw [if_pos hch2]
    exact assocGet_set_self _ DOCS_KEY _
  · have hch2f : (chainM2 g t s).2.2 = false := by
      cases hx : (chainM2 g t s).2.2
      · rfl
      · exact absurd hx hch2
    have hmsd : chainM2 g t s = ((chainM1 g t s).1, chainS1 g t s, false) :=
      msdDocs_nochange t (chainM1 g t s).1 (chainS1 g t s) false hch2f
    have hs2 : chainS2 g t s = chainS1 g t s := by
      unfold chainS2
      rw [if_neg (by rw [hch2f]; exact Bool.false_ne_true), hmsd]
    by_cases hch1 : (chainM1 g t s).2.2.2 = true
    · right
      show getItem (chainS2 g t s) DOCS_KEY = some (encodeDocs (chainM2 g t s).1)
      rw [hs2, hmsd]
      unfold chainS1
      rw [if_pos hch1]
      exact assocGet_set_self _ DOCS_KEY _
    · left
      have hch1f : (chainM1 g t s).2.2.2 = false := by
        cases hx : (chainM1 g t s).2.2.2
        · rfl
        · exact absurd hx hch1
      have hmdi : chainM1 g t s = (chainDocs s, s, 0, false) :=
        migrateDocsImages_nochange g 0 t s (chainDocs s) hch1f
      have hs1 : chainS1 g t s = s := by
        unfold chainS1
        rw [if_neg (by rw [hch1f]; exact Bool.false_ne_true), hmdi]
      constructor
      · show getItem (chainS2 g t s) DOCS_KEY = getItem s DOCS_KEY
        rw [hs2, hs1]
      · show (chainM2 g t s).1 = chainDocs s
        rw [hmsd, hmdi]

theorem migrationChain_docs_key (g : Nat → String) (t : Nat) (s : Store) :
    getItem (migrationChain g t s) DOCS_KEY = getItem (chainStage12 g t s).2 DOCS_KEY := by
  unfold migrationChain
  rw [setStorageVersion_frame CURRENT_STORAGE_VERSION _ DOCS_KEY (by decide)]
  exact migrateImagesMapToPerKey_frame _ DOCS_KEY imgKey_ne_docs (by decide)

theorem chainDocs_after (g : Nat → String) (t : Nat) (s : Store) :
    chainDocs (migrationChain g t s) = (chainStage12 g t s).1 := by
  have hkey := migrationChain_docs_key g t s
  rcases chainStage12_store_docs g t s with ⟨h1, h2⟩ | h1
  · rw [h2]
    unfold chainDocs
    rw [hkey, h1]
  · unfold chainDocs
    rw [hkey, h1]
    show (if encodeDocs (chainStage12 g t s).1 = "" then []
      else (parseDocs (encodeDocs (chainStage12 g t s).1)).getD []) = (chainStage12 g t s).1
    rw [if_neg (encodeDocs_ne_empty _)]
    have hnd : (((chainStage12 g t s).1).map Prod.fst).Nodup := by
      rw [chainStage12_keys]
      exact chainDocs_nodup s
    rw [parseDocs_encodeDocs _ hnd]
    rfl

theorem chainStage12_idem (g g' : Nat → String) (t t' : Nat) (s : Store) :
    chainStage12 g' t' (migrationChain g t s) =
      ((chainStage12 g t s).1, migrationChain g t s) := by
  have hblank : ∀ e ∈ chainDocs (migrationChain g t s), docNonblank e.2 = false := by
    rw [chainDocs_after g t s]
    exact chainStage12_blank g t s
  have hm1 : chainM1 g' t' (migrationChain g t s) =
      (chainDocs (migrationChain g t s), migrationChain g t s, 0, false) := by
    unfold chainM1
    exact migrateDocsImages_noop g' 0 t' (migrationChain g t s) _ hblank
  have hs1 : chainS1 g' t' (migrationChain g t s) = migrationChain g t s := by
    unfold chainS1
    rw [hm1]
    simp
  have hm2 : chainM2 g' t' (migrationChain g t s) =
      (chainDocs (migrationChain g t s), migrationChain g t s, false) := by
    unfold chainM2
    rw [hs1, hm1]
    exact msdDocs_noop t' _ _ false hblank
  have hs2 : chainS2 g' t' (migrationChain g t s) = migrationChain g t s := by
    unfold chainS2
    rw [hm2]
    simp
  show ((chainM2 g' t' (migrationChain g t s)).1, chainS2 g' t' (migrationChain g t s)) = _
  rw [hm2, hs2, chainDocs_after g t s]

/-- C3: for every starting store snapshot (documents map, image entries,
body slots, stored version), running the full migration chain —
`migrateDocsImages`, then `migrateSplitDocs`, then
`migrateImagesMapToPerKey`, then the version write — twice yields the same
final store state as running it once: the second run makes no changes,
whatever timestamps and fresh-id supplies the two runs see. -/
theorem c3_migration_chain_idempotent (g g' : Nat → String) (t t' : Nat) (s : Store) :
    migrationChain g' t' (migrationChain g t s) = migrationChain g t s := by
  show setStorageVersion CURRENT_STORAGE_VERSION
      (migrateImagesMapToPerKey (chainStage12 g' t' (migrationChain g t s)).2).1 =
    migrationChain g t s
  rw [show (chainStage12 g' t' (migrationChain g t s)).2 =
      ((chainStage12 g t s).1, migrationChain g t s).2 from
    congrArg Prod.snd (chainStage12_idem g g' t t' s)]
  show setStorageVersion CURRENT_STORAGE_VERSION
      (migrateImagesMapToPerKey (migrationChain g t s)).1 = migrationChain g t s
  conv_lhs => rw [show migrationChain g t s = setStorageVersion CURRENT_STORAGE_VERSION
    (migrateImagesMapToPerKey (chainStage12 g t s).2).1 from rfl]
  rw [show (migrateImagesMapToPerKey (setStorageVersion CURRENT_STORAGE_VERSION
      (migrateImagesMapToPerKey (chainStage12 g t s).2).1)).1 =
      setStorageVersion CURRENT_STORAGE_VERSION
        (migrateImagesMapToPerKey (chainStage12 g t s).2).1 from
    congrArg Prod.fst (perKey_version_idem _)]
  rw [setStorageVersion_idem]
  rfl
